import Mathlib

/-!
Verification of the nimble mod synchronizer's core against its specification.

The Rust sources are shallowly embedded: byte streams are `List Nat`
(each element a byte value), machine integers are `Nat` with explicit
`% 2 ^ 32` / `% 2 ^ 64` where overflow matters, strings are Lean `String`
(a list of characters, adequate for the ASCII data the claims exercise),
and fallible operations return an explicit outcome type.  MD5 is
implemented in full (RFC 1321) so that checksums are computable.
-/

set_option maxRecDepth 4000

namespace Nimble

/-! ## 32-bit arithmetic helpers (Nat with explicit masking) -/

/-- Bitwise combination of the low `fuel` bits of `x` and `y`, where `f`
combines one bit of each (each argument and the result in `{0,1}`). -/
def bitCombine (f : Nat → Nat → Nat) : Nat → Nat → Nat → Nat
  | 0, _, _ => 0
  | fuel + 1, x, y => f (x % 2) (y % 2) + 2 * bitCombine f fuel (x / 2) (y / 2)

/-- Bitwise 32-bit AND. -/
def land32 (x y : Nat) : Nat := bitCombine (fun a b => a * b) 32 x y

/-- Bitwise 32-bit OR. -/
def lor32 (x y : Nat) : Nat := bitCombine (fun a b => a + b - a * b) 32 x y

/-- Bitwise 32-bit XOR. -/
def lxor32 (x y : Nat) : Nat := bitCombine (fun a b => (a + b) % 2) 32 x y

/-- Bitwise 32-bit NOT. -/
def lnot32 (x : Nat) : Nat := lxor32 x 0xFFFFFFFF

/-- Left 32-bit rotation of `x` (assumed `< 2 ^ 32`) by `n` (assumed `≤ 32`). -/
def rotl32 (x n : Nat) : Nat := (x * 2 ^ n + x / 2 ^ (32 - n)) % 2 ^ 32

/-! ## MD5 (RFC 1321) -/

/-- The 64 MD5 sine-derived round constants. -/
def md5K : List Nat :=
  [0xd76aa478, 0xe8c7b756, 0x242070db, 0xc1bdceee,
   0xf57c0faf, 0x4787c62a, 0xa8304613, 0xfd469501,
   0x698098d8, 0x8b44f7af, 0xffff5bb1, 0x895cd7be,
   0x6b901122, 0xfd987193, 0xa679438e, 0x49b40821,
   0xf61e2562, 0xc040b340, 0x265e5a51, 0xe9b6c7aa,
   0xd62f105d, 0x02441453, 0xd8a1e681, 0xe7d3fbc8,
   0x21e1cde6, 0xc33707d6, 0xf4d50d87, 0x455a14ed,
   0xa9e3e905, 0xfcefa3f8, 0x676f02d9, 0x8d2a4c8a,
   0xfffa3942, 0x8771f681, 0x6d9d6122, 0xfde5380c,
   0xa4beea44, 0x4bdecfa9, 0xf6bb4b60, 0xbebfbc70,
   0x289b7ec6, 0xeaa127fa, 0xd4ef3085, 0x04881d05,
   0xd9d4d039, 0xe6db99e5, 0x1fa27cf8, 0xc4ac5665,
   0xf4292244, 0x432aff97, 0xab9423a7, 0xfc93a039,
   0x655b59c3, 0x8f0ccc92, 0xffeff47d, 0x85845dd1,
   0x6fa87e4f, 0xfe2ce6e0, 0xa3014314, 0x4e0811a1,
   0xf7537e82, 0xbd3af235, 0x2ad7d2bb, 0xeb86d391]

/-- The 64 MD5 per-round left-rotation amounts. -/
def md5S : List Nat :=
  [7, 12, 17, 22, 7, 12, 17, 22, 7, 12, 17, 22, 7, 12, 17, 22,
   5, 9, 14, 20, 5, 9, 14, 20, 5, 9, 14, 20, 5, 9, 14, 20,
   4, 11, 16, 23, 4, 11, 16, 23, 4, 11, 16, 23, 4, 11, 16, 23,
   6, 10, 15, 21, 6, 10, 15, 21, 6, 10, 15, 21, 6, 10, 15, 21]

/-- One MD5 round: `i` is the round index (0..63), `M` the sixteen
message words of the current block, and the state is `(a, b, c, d)`. -/
def md5Step (M : List Nat) (st : Nat × Nat × Nat × Nat) (i : Nat) :
    Nat × Nat × Nat × Nat :=
  let a := st.1
  let b := st.2.1
  let c := st.2.2.1
  let d := st.2.2.2
  let f :=
    if i < 16 then lor32 (land32 b c) (land32 (lnot32 b) d)
    else if i < 32 then lor32 (land32 b d) (land32 c (lnot32 d))
    else if i < 48 then lxor32 b (lxor32 c d)
    else lxor32 c (lor32 b (lnot32 d))
  let g :=
    if i < 16 then i
    else if i < 32 then (5 * i + 1) % 16
    else if i < 48 then (3 * i + 5) % 16
    else (7 * i) % 16
  let f2 := (f + a + md5K.getD i 0 + M.getD g 0) % 2 ^ 32
  (d, (b + rotl32 f2 (md5S.getD i 0)) % 2 ^ 32, b, c)

/-- Process one 64-byte block (given as sixteen little-endian words). -/
def md5Block (st : Nat × Nat × Nat × Nat) (M : List Nat) :
    Nat × Nat × Nat × Nat :=
  let r := (List.range 64).foldl (md5Step M) st
  ((st.1 + r.1) % 2 ^ 32, (st.2.1 + r.2.1) % 2 ^ 32,
   (st.2.2.1 + r.2.2.1) % 2 ^ 32, (st.2.2.2 + r.2.2.2) % 2 ^ 32)

/-- Split a byte list into chunks of `n` bytes (`fuel`-driven recursion). -/
def chunksOf (n : Nat) : Nat → List Nat → List (List Nat)
  | 0, _ => []
  | _, [] => []
  | fuel + 1, bs => bs.take n :: chunksOf n fuel (bs.drop n)

/-- Decode four consecutive bytes as a little-endian 32-bit word. -/
def wordOfBytesLE (bs : List Nat) : Nat :=
  bs.getD 0 0 + 256 * (bs.getD 1 0 + 256 * (bs.getD 2 0 + 256 * bs.getD 3 0))

/-- The sixteen little-endian message words of a 64-byte block. -/
def blockWords (block : List Nat) : List Nat :=
  (chunksOf 4 16 block).map wordOfBytesLE

/-- Little-endian byte encoding of `x`, `n` bytes wide. -/
def bytesLE : Nat → Nat → List Nat
  | 0, _ => []
  | n + 1, x => x % 256 :: bytesLE n (x / 256)

/-- MD5 padding: a `0x80` byte, zeros to 56 mod 64, then the original
bit length as a 64-bit little-endian quantity. -/
def md5Pad (msg : List Nat) : List Nat :=
  msg ++ 0x80 :: List.replicate ((120 - (msg.length + 1) % 64) % 64) 0
    ++ bytesLE 8 ((8 * msg.length) % 2 ^ 64)

/-- MD5 of a byte list, as the 16 digest bytes. -/
def md5 (msg : List Nat) : List Nat :=
  let padded := md5Pad msg
  let st := (chunksOf 64 (padded.length) padded).foldl
    (fun st block => md5Block st (blockWords block))
    (0x67452301, 0xefcdab89, 0x98badcfe, 0x10325476)
  bytesLE 4 st.1 ++ bytesLE 4 st.2.1 ++ bytesLE 4 st.2.2.1 ++ bytesLE 4 st.2.2.2

/-! ## Hex encoding (the Rust code's `format!("{:X}", digest)` / `hex` crate) -/

/-- Uppercase hex digit for a value below 16. -/
def hexDigitChar (n : Nat) : Char :=
  if n < 10 then Char.ofNat (48 + n) else Char.ofNat (55 + n)

/-- The two uppercase hex characters of one byte. -/
def byteHexChars (b : Nat) : List Char := [hexDigitChar (b / 16), hexDigitChar (b % 16)]

/-- Uppercase hex characters of a byte list. -/
def hexUpperChars (bs : List Nat) : List Char := (bs.map byteHexChars).flatten

/-- Uppercase hex string of a byte list (32 characters for an MD5 digest). -/
def hexUpper (bs : List Nat) : String := String.mk (hexUpperChars bs)

/-- Byte values of a string (codepoints; coincides with UTF-8 for ASCII,
which is all the hashed checksum/path strings contain). -/
def strBytes (s : String) : List Nat := s.data.map Char.toNat

/-! ## SRF data model (src/srf.rs, src/md5_digest.rs) -/

/-- Rust `Part` (src/srf.rs): a contiguous hashed byte range of a file. -/
structure Part where
  path : String
  length : Nat
  start : Nat
  checksum : String
deriving DecidableEq

/-- Rust `FileType` (src/srf.rs). -/
inductive FileType where
  | file
  | pbo
deriving DecidableEq

/-- Rust `Md5Digest` (src/md5_digest.rs): a 16-byte digest value. -/
structure Md5Digest where
  inner : List Nat
deriving DecidableEq

/-- Rust `Md5Digest::default()`: sixteen zero bytes. -/
def Md5Digest.zero : Md5Digest := ⟨List.replicate 16 0⟩

/-- Rust `File` (src/srf.rs). `path` is the forward-slash relative path. -/
structure File where
  path : String
  length : Nat
  checksum : String
  type : FileType
  parts : List Part
deriving DecidableEq

/-- Rust `Mod` (src/srf.rs): one SRF manifest. -/
structure Mod where
  name : String
  checksum : Md5Digest
  files : List File
deriving DecidableEq

/-- Rust `Mod::generate_invalid` (src/srf.rs): placeholder local SRF with the
default (all-zero) checksum and no files, inheriting the remote name. -/
def Mod.generate_invalid (remote : Mod) : Mod :=
  { remote with checksum := Md5Digest.zero, files := [] }

/-! ## scan_file (src/srf.rs) -/

/-- The `scan_file` read loop (src/srf.rs): while the position is short of
the file length, read up to 5,000,000 bytes into the hasher and record a
part.  `pos` is the stream position; the fuel only bounds the recursion
(each iteration consumes at least one byte). -/
def scanFileLoop (basename : String) (contents : List Nat) :
    Nat → Nat → List Part
  | 0, _ => []
  | fuel + 1, pos =>
    if pos < contents.length then
      let chunk := (contents.drop pos).take 5000000
      let copied := chunk.length
      { path := basename ++ "_" ++ toString (pos + copied),
        length := copied,
        start := pos,
        checksum := hexUpper (md5 chunk) }
        :: scanFileLoop basename contents fuel (pos + copied)
    else []

/-- File-level checksum aggregation shared by `scan_file` and `scan_pbo`
(src/srf.rs): MD5 over the concatenated part-checksum strings. -/
def partsChecksum (parts : List Part) : String :=
  hexUpper (md5 ((parts.map (fun p => strBytes p.checksum)).flatten))

/-- Rust `scan_file` (src/srf.rs).  `basename` is the final path component used
in part paths; `relpath` the path relative to the mod directory
(`path.strip_prefix(base_path)`).  The recorded `length` is the loop's
final position, which equals the byte count of the file. -/
def scanFile (basename relpath : String) (contents : List Nat) : File :=
  let parts := scanFileLoop basename contents (contents.length + 1) 0
  { checksum := partsChecksum parts,
    length := contents.length,
    parts := parts,
    path := relpath,
    type := FileType.file }

/-- The part that claim C7 predicts for chunk `i` of a plain file. -/
def chunkPartSpec (basename : String) (contents : List Nat) (i : Nat) : Part :=
  { start := 5000000 * i,
    length := min 5000000 (contents.length - 5000000 * i),
    path := basename ++ "_" ++ toString (min (5000000 * (i + 1)) contents.length),
    checksum := hexUpper (md5 ((contents.drop (5000000 * i)).take 5000000)) }

theorem scanFileLoop_ge (basename : String) (contents : List Nat)
    (fuel pos : Nat) (h : contents.length ≤ pos) :
    scanFileLoop basename contents fuel pos = [] := by
  cases fuel with
  | zero => rfl
  | succ fuel => rw [scanFileLoop, if_neg (Nat.not_lt.mpr h)]

theorem scanFileLoop_closed (basename : String) (contents : List Nat) :
    ∀ fuel i, contents.length ≤ 5000000 * i + fuel →
      scanFileLoop basename contents fuel (5000000 * i) =
        (List.range' i ((contents.length - 5000000 * i + 4999999) / 5000000)).map
          (chunkPartSpec basename contents) := by
  intro fuel
  induction fuel with
  | zero =>
    intro i h
    have hc : (contents.length - 5000000 * i + 4999999) / 5000000 = 0 := by omega
    rw [hc]
    rfl
  | succ fuel ih =>
    intro i h
    by_cases hlt : 5000000 * i < contents.length
    · have hcopied : ((contents.drop (5000000 * i)).take 5000000).length
          = min 5000000 (contents.length - 5000000 * i) := by
        simp [List.length_take, List.length_drop]
      rw [scanFileLoop, if_pos hlt]
      simp only []
      by_cases hfull : 5000000 * (i + 1) ≤ contents.length
      · have hpos : 5000000 * i + ((contents.drop (5000000 * i)).take 5000000).length
            = 5000000 * (i + 1) := by rw [hcopied]; omega
        have hcount : (contents.length - 5000000 * i + 4999999) / 5000000
            = (contents.length - 5000000 * (i + 1) + 4999999) / 5000000 + 1 := by
          omega
        rw [hpos, ih (i + 1) (by omega), hcount, List.range'_succ, List.map_cons]
        have hmin : min (5000000 * (i + 1)) contents.length = 5000000 * (i + 1) := by
          omega
        have hhead : chunkPartSpec basename contents i =
            { path := basename ++ "_" ++ toString (5000000 * (i + 1)),
              length := ((contents.drop (5000000 * i)).take 5000000).length,
              start := 5000000 * i,
              checksum := hexUpper (md5 ((contents.drop (5000000 * i)).take 5000000)) } := by
          rw [chunkPartSpec, hmin, hcopied]
        rw [hhead]
      · have hpos : 5000000 * i + ((contents.drop (5000000 * i)).take 5000000).length
            = contents.length := by rw [hcopied]; omega
        have hcount : (contents.length - 5000000 * i + 4999999) / 5000000 = 1 := by
          omega
        rw [hpos, scanFileLoop_ge basename contents fuel contents.length (le_refl _),
          hcount, List.range'_succ, List.map_cons]
        have hmin : min (5000000 * (i + 1)) contents.length = contents.length := by
          omega
        have hhead : chunkPartSpec basename contents i =
            { path := basename ++ "_" ++ toString contents.length,
              length := ((contents.drop (5000000 * i)).take 5000000).length,
              start := 5000000 * i,
              checksum := hexUpper (md5 ((contents.drop (5000000 * i)).take 5000000)) } := by
          rw [chunkPartSpec, hmin, hcopied]
        rw [hhead]
        rfl
    · have hc : (contents.length - 5000000 * i + 4999999) / 5000000 = 0 := by omega
      rw [scanFileLoop_ge basename contents (fuel + 1) (5000000 * i) (by omega), hc]
      rfl

/-- Claim C7: `scan_file` splits a plain file into consecutive chunks of
exactly 5,000,000 bytes (the last possibly shorter).  Chunk `i` yields the
part starting at `5000000 * i` whose length is the chunk's size, whose
path is `<basename>_<end-offset>` and whose checksum is the MD5 of the
chunk; the number of parts is `ceil(length / 5000000)`.  A zero-length
file yields zero parts and a file checksum equal to the uppercase-hex MD5
of the empty byte string. -/
theorem scan_file_chunks (basename relpath : String) (contents : List Nat) :
    (scanFile basename relpath contents).parts =
      (List.range ((contents.length + 4999999) / 5000000)).map
        (chunkPartSpec basename contents)
    ∧ (scanFile basename relpath []).parts = []
    ∧ (scanFile basename relpath []).checksum = hexUpper (md5 []) := by
  refine ⟨?_, rfl, rfl⟩
  have h := scanFileLoop_closed basename contents (contents.length + 1) 0 (by omega)
  rw [Nat.mul_zero, Nat.sub_zero] at h
  rw [List.range_eq_range']
  exact h

/-! ## PBO reader (src/pbo.rs) -/

/-- Rust `EntryType` (src/pbo.rs). -/
inductive EntryType where
  | vers
  | cprs
  | enco
  | none
deriving DecidableEq

/-- Rust `PboEntry` (src/pbo.rs). -/
structure PboEntry where
  filename : String
  type : EntryType
  original_size : Nat
  offset : Nat
  timestamp : Nat
  data_size : Nat
deriving DecidableEq

/-- Outcome of a piece of embedded Rust code: a value, an error returned
to the caller (`Err`), or a `panic!` aborting the process. -/
inductive Outcome (α : Type) where
  | ok (val : α)
  | err
  | panicked
deriving DecidableEq

/-- Rust `read_string` (src/pbo.rs): `read_until(b'\0')` plus NUL-terminated
C-string conversion; yields the bytes before the first NUL and the stream
after it.  When the stream holds no NUL, `read_until` stops at EOF and the
unchecked `CStr` conversion reads out of bounds; that degenerate case is
modelled as a read failure. -/
def readStringPbo (input : List Nat) : Option (String × List Nat) :=
  if 0 ∈ input then
    Option.some (String.mk ((input.takeWhile (fun b => b ≠ 0)).map Char.ofNat),
      (input.dropWhile (fun b => b ≠ 0)).tail)
  else Option.none

/-- Rust `read_u32::<LittleEndian>`: four bytes, little endian; EOF is an I/O
error returned to the caller. -/
def readU32 (input : List Nat) : Option (Nat × List Nat) :=
  match input with
  | b0 :: b1 :: b2 :: b3 :: rest =>
      Option.some (b0 + 256 * (b1 + 256 * (b2 + 256 * b3)), rest)
  | _ => Option.none

/-- The type-tag match in `PboEntry::read` (src/pbo.rs): the four known
tags map to entry types; any other tag hits a bare `panic!()`. -/
def decodeEntryTag (tag : Nat) : Option EntryType :=
  if tag = 0x56657273 then Option.some EntryType.vers
  else if tag = 0x43707273 then Option.some EntryType.cprs
  else if tag = 0x456e6372 then Option.some EntryType.enco
  else if tag = 0 then Option.some EntryType.none
  else Option.none

/-- Rust `PboEntry::read` (src/pbo.rs): filename, type tag (panicking on an
unknown tag before the remaining fields are read), then four u32 fields. -/
def PboEntry.read (input : List Nat) : Outcome (PboEntry × List Nat) :=
  match readStringPbo input with
  | Option.none => Outcome.err
  | Option.some (filename, r1) =>
    match readU32 r1 with
    | Option.none => Outcome.err
    | Option.some (tag, r2) =>
      match decodeEntryTag tag with
      | Option.none => Outcome.panicked
      | Option.some ty =>
        match readU32 r2 with
        | Option.none => Outcome.err
        | Option.some (original_size, r3) =>
          match readU32 r3 with
          | Option.none => Outcome.err
          | Option.some (offset, r4) =>
            match readU32 r4 with
            | Option.none => Outcome.err
            | Option.some (timestamp, r5) =>
              match readU32 r5 with
              | Option.none => Outcome.err
              | Option.some (data_size, r6) =>
                Outcome.ok
                  ({ filename := filename, type := ty,
                     original_size := original_size, offset := offset,
                     timestamp := timestamp, data_size := data_size }, r6)

/-- Rust `read_extensions` (src/pbo.rs): NUL-terminated key/value pairs until an
empty key.  The fuel only bounds the loop (each iteration consumes at
least one byte); exhaustion is modelled as a read failure. -/
def readExtensions : Nat → List Nat → Outcome (List (String × String) × List Nat)
  | 0, _ => Outcome.err
  | fuel + 1, input =>
    match readStringPbo input with
    | Option.none => Outcome.err
    | Option.some (key, r1) =>
      if key = "" then Outcome.ok ([], r1)
      else
        match readStringPbo r1 with
        | Option.none => Outcome.err
        | Option.some (value, r2) =>
          match readExtensions fuel r2 with
          | Outcome.ok (rest, r3) => Outcome.ok ((key, value) :: rest, r3)
          | Outcome.err => Outcome.err
          | Outcome.panicked => Outcome.panicked

/-- The entry-record loop in `Pbo::read` (src/pbo.rs): records until the
sentinel `(type = None, filename = "")`, which is not kept.  The fuel only
bounds the loop; exhaustion is modelled as a read failure. -/
def readEntriesLoop : Nat → List Nat → Outcome (List PboEntry × List Nat)
  | 0, _ => Outcome.err
  | fuel + 1, input =>
    match PboEntry.read input with
    | Outcome.err => Outcome.err
    | Outcome.panicked => Outcome.panicked
    | Outcome.ok (entry, rest) =>
      if entry.type = EntryType.none ∧ entry.filename = "" then Outcome.ok ([], rest)
      else
        match readEntriesLoop fuel rest with
        | Outcome.ok (entries, r2) => Outcome.ok (entry :: entries, r2)
        | Outcome.err => Outcome.err
        | Outcome.panicked => Outcome.panicked

/-- Rust `Pbo` (src/pbo.rs) minus its reader handle: the `Vers` header record,
the directory byte length, the extensions, and the entry list.  Note the
entry list does NOT contain the `Vers` record, which is read separately
into `header`. -/
structure Pbo where
  header : PboEntry
  header_len : Nat
  extensions : List (String × String)
  entries : List PboEntry
deriving DecidableEq

/-- Rust `Pbo::read` (src/pbo.rs) over the whole file contents: the header
record (panic unless it is `Vers` with an empty filename), the extensions
block, then entries to the sentinel.  `header_len` is the stream position
at the end of the directory. -/
def Pbo.read (contents : List Nat) : Outcome Pbo :=
  match PboEntry.read contents with
  | Outcome.err => Outcome.err
  | Outcome.panicked => Outcome.panicked
  | Outcome.ok (header, r1) =>
    if ¬ header.filename = "" ∨ ¬ header.type = EntryType.vers then Outcome.panicked
    else
      match readExtensions (r1.length + 1) r1 with
      | Outcome.err => Outcome.err
      | Outcome.panicked => Outcome.panicked
      | Outcome.ok (extensions, r2) =>
        match readEntriesLoop (r2.length + 1) r2 with
        | Outcome.err => Outcome.err
        | Outcome.panicked => Outcome.panicked
        | Outcome.ok (entries, r3) =>
          Outcome.ok
            { header := header, header_len := contents.length - r3.length,
              extensions := extensions, entries := entries }

/-! ## scan_pbo (src/srf.rs) -/

/-- Rust `generate_hash` (src/srf.rs) reading from position `pos`: MD5 of the
next `len` bytes (fewer when the stream ends early), uppercase hex. -/
def generateHash (contents : List Nat) (pos len : Nat) : String :=
  hexUpper (md5 ((contents.drop pos).take len))

/-- The per-entry loop of `scan_pbo` (src/srf.rs): one part per entry,
path the entry's filename, length its `data_size`, offsets accumulating. -/
def scanPboLoop (contents : List Nat) : List PboEntry → Nat → List Part
  | [], _ => []
  | e :: es, offset =>
      { path := e.filename,
        length := e.data_size,
        start := offset,
        checksum := generateHash contents offset e.data_size }
        :: scanPboLoop contents es (offset + e.data_size)

/-- End of the payload region hashed by the entry loop of `scan_pbo`:
`header_len` plus the `data_size` of every entry after the first (the
source iterates `pbo.entries.iter().skip(1)`). -/
def pboDataEnd (pbo : Pbo) : Nat :=
  pbo.header_len + ((pbo.entries.drop 1).map PboEntry.data_size).sum

/-- The parts list built by `scan_pbo` (src/srf.rs): `$$HEADER$$` over
`[0, header_len)`, one part per entry of `pbo.entries.iter().skip(1)`,
then `$$END$$` over the remainder. -/
def scanPboParts (contents : List Nat) (pbo : Pbo) : List Part :=
  { path := "$$HEADER$$", length := pbo.header_len, start := 0,
    checksum := generateHash contents 0 pbo.header_len }
    :: scanPboLoop contents (pbo.entries.drop 1) pbo.header_len
    ++ [{ path := "$$END$$", length := contents.length - pboDataEnd pbo,
          start := pboDataEnd pbo,
          checksum := generateHash contents (pboDataEnd pbo)
            (contents.length - pboDataEnd pbo) }]

/-- Rust `scan_pbo` (src/srf.rs).  `relpath` is `path.strip_prefix(base_path)`.
The `length - offset` underflow for the `$$END$$` part (a TODO in the
source records that it once panicked) is modelled as a panic. -/
def scanPbo (relpath : String) (contents : List Nat) : Outcome File :=
  match Pbo.read contents with
  | Outcome.err => Outcome.err
  | Outcome.panicked => Outcome.panicked
  | Outcome.ok pbo =>
    if contents.length < pboDataEnd pbo then Outcome.panicked
    else
      Outcome.ok
        { type := FileType.pbo, path := relpath,
          parts := scanPboParts contents pbo,
          checksum := partsChecksum (scanPboParts contents pbo),
          length := contents.length }

/-! ## Claims C1, C6, C9 -/

/-- The layout projection of a part: its path, start offset and length. -/
def partTriple (p : Part) : String × Nat × Nat := (p.path, p.start, p.length)

/-- The layout of `scan_pbo`'s result: the `(path, start, length)` triple
of every part, in order. -/
def scannedLayout (relpath : String) (contents : List Nat) :
    Outcome (List (String × Nat × Nat)) :=
  match scanPbo relpath contents with
  | Outcome.ok f => Outcome.ok (f.parts.map partTriple)
  | Outcome.err => Outcome.err
  | Outcome.panicked => Outcome.panicked

/-- Layout of one part per entry with accumulating offsets. -/
def entriesLayout : List PboEntry → Nat → List (String × Nat × Nat)
  | [], _ => []
  | e :: es, off => (e.filename, off, e.data_size) :: entriesLayout es (off + e.data_size)

/-- The layout claim C1 predicts, built from claim's own words: a
`$$HEADER$$` part over `[0, header_len)`; then one part for every
directory entry except the first — the directory record list being the
`Vers` record followed by `pbo.entries`, so this is all of `pbo.entries`
— contiguous from `header_len`; then `$$END$$` up to the file length. -/
def c1PartsLayout (contents : List Nat) : Outcome (List (String × Nat × Nat)) :=
  match Pbo.read contents with
  | Outcome.ok pbo =>
      Outcome.ok (("$$HEADER$$", 0, pbo.header_len)
        :: entriesLayout pbo.entries pbo.header_len
        ++ [("$$END$$", pbo.header_len + (pbo.entries.map PboEntry.data_size).sum,
             contents.length
               - (pbo.header_len + (pbo.entries.map PboEntry.data_size).sum))])
  | Outcome.err => Outcome.err
  | Outcome.panicked => Outcome.panicked

/-- Parts standing contiguously from a given offset: each part starts
where the previous one ended. -/
def contiguousFrom : Nat → List Part → Prop
  | _, [] => True
  | pos, p :: ps => p.start = pos ∧ contiguousFrom (pos + p.length) ps

theorem scanPboLoop_layout (c : List Nat) (es : List PboEntry) :
    ∀ off, (scanPboLoop c es off).map partTriple = entriesLayout es off := by
  induction es with
  | nil => intro off; rfl
  | cons e es ih =>
    intro off
    rw [scanPboLoop, entriesLayout, List.map_cons, ih]
    rfl

theorem scanPboLoop_sum (c : List Nat) (es : List PboEntry) :
    ∀ off, ((scanPboLoop c es off).map Part.length).sum
      = (es.map PboEntry.data_size).sum := by
  induction es with
  | nil => intro off; rfl
  | cons e es ih =>
    intro off
    rw [scanPboLoop, List.map_cons, List.map_cons, List.sum_cons, List.sum_cons, ih]

theorem scanPboLoop_contig (c : List Nat) (es : List PboEntry) :
    ∀ off rest,
      contiguousFrom (off + (es.map PboEntry.data_size).sum) rest →
      contiguousFrom off (scanPboLoop c es off ++ rest) := by
  induction es with
  | nil => intro off rest h; exact h
  | cons e es ih =>
    intro off rest h
    rw [scanPboLoop]
    refine ⟨rfl, ?_⟩
    apply ih
    rw [Nat.add_assoc]
    exact h

/-- A well-formed two-entry PBO: `Vers` header, empty extensions block,
entries `a` (1 data byte) and `b` (2 data bytes), sentinel, 3 payload
bytes.  Directory length 87, file length 90. -/
def c1ex : List Nat :=
  [0, 0x73, 0x72, 0x65, 0x56] ++ List.replicate 16 0
    ++ [0]
    ++ [97, 0, 0, 0, 0, 0] ++ List.replicate 12 0 ++ [1, 0, 0, 0]
    ++ [98, 0, 0, 0, 0, 0] ++ List.replicate 12 0 ++ [2, 0, 0, 0]
    ++ [0] ++ List.replicate 20 0
    ++ [10, 20, 30]

/-- Claim C1, counterexample: on `c1ex` the scan succeeds but omits the
part for entry `a` — the elided entry is the first entry of the
post-extensions entry list (which does not contain the `Vers` record),
not the `Vers` record itself — so the produced layout differs from the
claimed one, which keeps `a` and `b` and covers `[87, 90)` with them. -/
theorem scan_pbo_vers_elision_counterexample :
    scannedLayout "x.pbo" c1ex =
        Outcome.ok [("$$HEADER$$", 0, 87), ("b", 87, 2), ("$$END$$", 89, 1)]
    ∧ c1PartsLayout c1ex =
        Outcome.ok [("$$HEADER$$", 0, 87), ("a", 87, 1), ("b", 88, 2),
          ("$$END$$", 90, 0)]
    ∧ scannedLayout "x.pbo" c1ex ≠ c1PartsLayout c1ex := by
  refine ⟨by decide, by decide, by decide⟩

/-- Claim C1 (amended): for every PBO accepted by the reader whose payload
sizes fit the file, `scan_pbo` returns, in order: `$$HEADER$$` over
`[0, header_len)`; then one part per entry of the parsed entry list
EXCEPT ITS FIRST — the parsed list excludes the `Vers` record, so the
elided entry is the first file entry, whose bytes shift into the
subsequent parts — each part carrying that entry's filename and
`data_size`, laid out contiguously from `header_len`; finally `$$END$$`
covering the remainder up to the file length. -/
theorem scan_pbo_layout (relpath : String) (contents : List Nat) (pbo : Pbo)
    (h1 : Pbo.read contents = Outcome.ok pbo)
    (h2 : ¬ contents.length < pboDataEnd pbo) :
    scannedLayout relpath contents =
      Outcome.ok (("$$HEADER$$", 0, pbo.header_len)
        :: entriesLayout (pbo.entries.drop 1) pbo.header_len
        ++ [("$$END$$", pboDataEnd pbo, contents.length - pboDataEnd pbo)]) := by
  rw [scannedLayout, scanPbo, h1]
  simp only [if_neg h2, scanPboParts, List.map_append, List.map_cons,
    List.map_nil, scanPboLoop_layout, partTriple]

/-- The `Pbo` value parsed from `c1wit`. -/
def c1witPbo : Pbo :=
  { header := { filename := "", type := EntryType.vers, original_size := 0,
                offset := 0, timestamp := 0, data_size := 0 },
    header_len := 65,
    extensions := [],
    entries := [{ filename := "c", type := EntryType.none, original_size := 0,
                  offset := 0, timestamp := 0, data_size := 1 }] }

/-- A well-formed one-entry PBO: entry `c` with 1 data byte, 2 payload
bytes.  Directory length 65, file length 67. -/
def c1wit : List Nat :=
  [0, 0x73, 0x72, 0x65, 0x56] ++ List.replicate 16 0
    ++ [0]
    ++ [99, 0, 0, 0, 0, 0] ++ List.replicate 12 0 ++ [1, 0, 0, 0]
    ++ [0] ++ List.replicate 20 0
    ++ [7, 8]

theorem scan_pbo_layout_witness :
    scannedLayout "w.pbo" c1wit =
      Outcome.ok [("$$HEADER$$", 0, 65), ("$$END$$", 65, 2)] := by
  have h := scan_pbo_layout "w.pbo" c1wit c1witPbo (by decide) (by decide)
  rw [h]
  rfl

/-- Claim C6 (code bug): on a type tag outside the four known values
(`Vers`, `Cprs`, `Enco`, `None`) the PBO entry reader hits a bare
`panic!()` — aborting the process — instead of returning an error to its
caller.  Concretely: an empty NUL-terminated filename followed by the
little-endian tag `0x00000001`. -/
theorem pbo_entry_read_unknown_tag_panics :
    PboEntry.read [0, 1, 0, 0, 0] = Outcome.panicked
    ∧ decodeEntryTag 1 = Option.none := by
  refine ⟨by decide, by decide⟩

/-- Claim C9: every `File` produced by `scan_pbo` has part lengths
summing to the file length, contiguous parts, and a first part starting
at offset 0. -/
theorem scan_pbo_part_invariants (relpath : String) (contents : List Nat)
    (f : File) (h : scanPbo relpath contents = Outcome.ok f) :
    (f.parts.map Part.length).sum = f.length
    ∧ contiguousFrom 0 f.parts
    ∧ ∃ p rest, f.parts = p :: rest ∧ p.start = 0 := by
  rw [scanPbo] at h
  cases hr : Pbo.read contents with
  | err => rw [hr] at h; exact Outcome.noConfusion h
  | panicked => rw [hr] at h; exact Outcome.noConfusion h
  | ok pbo =>
    rw [hr] at h
    simp only [] at h
    by_cases hb : contents.length < pboDataEnd pbo
    · rw [if_pos hb] at h; exact Outcome.noConfusion h
    · rw [if_neg hb] at h
      injection h with h
      subst h
      refine ⟨?_, ?_, ?_⟩
      · show ((scanPboParts contents pbo).map Part.length).sum = contents.length
        simp only [scanPboParts, List.map_append, List.map_cons, List.map_nil,
          List.sum_append, List.sum_cons, List.sum_nil, scanPboLoop_sum]
        rw [pboDataEnd] at hb ⊢
        omega
      · show contiguousFrom 0 (scanPboParts contents pbo)
        refine ⟨rfl, ?_⟩
        show contiguousFrom (0 + pbo.header_len)
          (scanPboLoop contents (pbo.entries.drop 1) pbo.header_len
            ++ [{ path := "$$END$$", length := contents.length - pboDataEnd pbo,
                  start := pboDataEnd pbo,
                  checksum := generateHash contents (pboDataEnd pbo)
                    (contents.length - pboDataEnd pbo) }])
        rw [Nat.zero_add]
        apply scanPboLoop_contig
        refine ⟨?_, trivial⟩
        rw [pboDataEnd]
      · exact ⟨_, _, rfl, rfl⟩

/-- A well-formed one-entry PBO: entry `d` with 2 data bytes, 3 payload
bytes.  Directory length 65, file length 68. -/
def c9wit : List Nat :=
  [0, 0x73, 0x72, 0x65, 0x56] ++ List.replicate 16 0
    ++ [0]
    ++ [100, 0, 0, 0, 0, 0] ++ List.replicate 12 0 ++ [2, 0, 0, 0]
    ++ [0] ++ List.replicate 20 0
    ++ [1, 2, 3]

theorem scan_pbo_part_invariants_witness :
    (match scanPbo "y.pbo" c9wit with
     | Outcome.ok f =>
        (f.parts.map Part.length).sum = f.length
        ∧ contiguousFrom 0 f.parts
        ∧ ∃ p rest, f.parts = p :: rest ∧ p.start = 0
     | Outcome.err => False
     | Outcome.panicked => False) := by
  cases hval : scanPbo "y.pbo" c9wit with
  | ok f => exact scan_pbo_part_invariants "y.pbo" c9wit f hval
  | err => exact absurd hval (by decide)
  | panicked => exact absurd hval (by decide)

/-! ## scan_mod aggregation (src/srf.rs) and claim C8 -/

/-- Rust `str::to_uppercase` over char-level strings (ASCII-exact). -/
def upperChars (s : String) : List Char := s.data.map Char.toUpper

/-- Character-wise lexicographic `≤` (Rust `str::cmp` is byte-wise; the
two agree on ASCII). -/
def lexLe : List Char → List Char → Bool
  | [], _ => true
  | _ :: _, [] => false
  | a :: as, b :: bs =>
    if a < b then true
    else if b < a then false
    else lexLe as bs

/-- The sort key of `scan_mod`'s file sort: the uppercased path. -/
def fileKey (f : File) : List Char := upperChars f.path

/-- The comparator of `files.sort_by` in `scan_mod` (src/srf.rs):
`a.path.to_uppercase().cmp(&b.path.to_uppercase())` as a `≤` relation. -/
def fileLe (a b : File) : Prop := lexLe (fileKey a) (fileKey b) = true

instance : DecidableRel fileLe := fun a b => by
  unfold fileLe
  infer_instance

/-- Rust `files.sort_by(...)`: Rust's `sort_by` is a stable sort, modelled by
insertion sort (all stable sorts agree on a total preorder). -/
def sortFiles (files : List File) : List File := files.insertionSort fileLe

/-- Rust `file.path.as_str().to_lowercase().replace('\\', "/")` (src/srf.rs). -/
def normPath (s : String) : String :=
  String.mk ((s.data.map Char.toLower).map (fun ch => if ch = '\\' then '/' else ch))

/-- The byte stream hashed into the mod checksum (src/srf.rs): for each
file in order, its checksum string then its normalized path. -/
def modChecksumBytes (files : List File) : List Nat :=
  (files.map (fun f => strBytes f.checksum ++ strBytes (normPath f.path))).flatten

/-- The aggregation tail of `scan_mod` (src/srf.rs): sort the scanned
files by uppercased path, then MD5-fold each file's checksum string and
normalized path.  The recursive directory walk that produced `files` is
parallel and enumeration-order nondeterministic, so the discovered list
is an input here; `name` is the lowercased final component of the mod
directory. -/
def scanModAggregate (name : String) (files : List File) : Mod :=
  { name := name,
    checksum := ⟨md5 (modChecksumBytes (sortFiles files))⟩,
    files := sortFiles files }

theorem lexLe_total : ∀ x y : List Char, lexLe x y = true ∨ lexLe y x = true := by
  intro x
  induction x with
  | nil => intro y; exact Or.inl rfl
  | cons a as ih =>
    intro y
    cases y with
    | nil => exact Or.inr rfl
    | cons b bs =>
      rcases lt_trichotomy a b with h | h | h
      · left; rw [lexLe, if_pos h]
      · subst h
        rcases ih bs with hx | hx
        · left; rw [lexLe, if_neg (lt_irrefl a), if_neg (lt_irrefl a)]; exact hx
        · right; rw [lexLe, if_neg (lt_irrefl a), if_neg (lt_irrefl a)]; exact hx
      · right; rw [lexLe, if_pos h]

theorem lexLe_trans : ∀ x y z : List Char,
    lexLe x y = true → lexLe y z = true → lexLe x z = true := by
  intro x
  induction x with
  | nil => intro y z _ _; rfl
  | cons a as ih =>
    intro y z hxy hyz
    cases y with
    | nil => exact absurd hxy (by rw [lexLe]; exact Bool.false_ne_true)
    | cons b bs =>
      cases z with
      | nil => exact absurd hyz (by rw [lexLe]; exact Bool.false_ne_true)
      | cons c cs =>
        rw [lexLe] at hxy hyz ⊢
        by_cases hab : a < b
        · by_cases hbc : b < c
          · rw [if_pos (lt_trans hab hbc)]
          · by_cases hcb : c < b
            · rw [if_neg hbc, if_pos hcb] at hyz
              exact absurd hyz Bool.false_ne_true
            · have : b = c := le_antisymm (le_of_not_lt hcb) (le_of_not_lt hbc)
              subst this
              rw [if_pos hab]
        · by_cases hba : b < a
          · rw [if_neg hab, if_pos hba] at hxy
            exact absurd hxy Bool.false_ne_true
          · have : a = b := le_antisymm (le_of_not_lt hba) (le_of_not_lt hab)
            subst this
            rw [if_neg (lt_irrefl a), if_neg (lt_irrefl a)] at hxy
            by_cases hac : a < c
            · rw [if_pos hac]
            · by_cases hca : c < a
              · rw [if_neg hac, if_pos hca] at hyz
                exact absurd hyz Bool.false_ne_true
              · have : a = c := le_antisymm (le_of_not_lt hca) (le_of_not_lt hac)
                subst this
                rw [if_neg (lt_irrefl a), if_neg (lt_irrefl a)] at hyz ⊢
                exact ih bs cs hxy hyz

theorem lexLe_antisymm : ∀ x y : List Char,
    lexLe x y = true → lexLe y x = true → x = y := by
  intro x
  induction x with
  | nil =>
    intro y _ hyx
    cases y with
    | nil => rfl
    | cons b bs => exact absurd hyx (by rw [lexLe]; exact Bool.false_ne_true)
  | cons a as ih =>
    intro y hxy hyx
    cases y with
    | nil => exact absurd hxy (by rw [lexLe]; exact Bool.false_ne_true)
    | cons b bs =>
      rw [lexLe] at hxy hyx
      by_cases hab : a < b
      · rw [if_neg (lt_asymm hab), if_pos hab] at hyx
        exact absurd hyx Bool.false_ne_true
      · by_cases hba : b < a
        · rw [if_neg hab, if_pos hba] at hxy
          exact absurd hxy Bool.false_ne_true
        · have heq : a = b := le_antisymm (le_of_not_lt hba) (le_of_not_lt hab)
          subst heq
          rw [if_neg (lt_irrefl a), if_neg (lt_irrefl a)] at hxy hyx
          rw [ih bs hxy hyx]

instance : IsTotal File fileLe := ⟨fun a b => lexLe_total (fileKey a) (fileKey b)⟩

instance : IsTrans File fileLe :=
  ⟨fun a b c => lexLe_trans (fileKey a) (fileKey b) (fileKey c)⟩

/-- Two sorted lists that are permutations of each other and whose sort
keys are pairwise distinct are equal (`fileLe` is only a preorder on
`File`, but it is antisymmetric on keys). -/
theorem sorted_nodupkeys_perm_eq :
    ∀ l1 l2 : List File, l1.Perm l2 →
      l1.Sorted fileLe → l2.Sorted fileLe → (l1.map fileKey).Nodup →
      l1 = l2 := by
  intro l1
  induction l1 with
  | nil =>
    intro l2 hperm _ _ _
    exact (hperm.nil_eq).symm ▸ rfl
  | cons a t1 ih =>
    intro l2 hperm hs1 hs2 hnd
    cases l2 with
    | nil => exact absurd hperm.eq_nil (by exact fun h => List.noConfusion h)
    | cons b t2 =>
      have hab : a = b := by
        by_contra hne
        have hbmem : b ∈ a :: t1 := hperm.symm.subset (List.mem_cons_self b t2)
        have hbt1 : b ∈ t1 := by
          cases List.mem_cons.mp hbmem with
          | inl h => exact absurd h.symm hne
          | inr h => exact h
        have hamem : a ∈ b :: t2 := hperm.subset (List.mem_cons_self a t1)
        have hat2 : a ∈ t2 := by
          cases List.mem_cons.mp hamem with
          | inl h => exact absurd h hne
          | inr h => exact h
        have h1 : fileLe a b := ((List.sorted_cons.mp hs1).1) b hbt1
        have h2 : fileLe b a := ((List.sorted_cons.mp hs2).1) a hat2
        have hkey : fileKey a = fileKey b := lexLe_antisymm _ _ h1 h2
        have : fileKey a ∉ t1.map fileKey := (List.nodup_cons.mp hnd).1
        exact this (hkey ▸ List.mem_map_of_mem fileKey hbt1)
      subst hab
      have htail : t1 = t2 :=
        ih t2 hperm.cons_inv (List.sorted_cons.mp hs1).2
          (List.sorted_cons.mp hs2).2 (List.nodup_cons.mp hnd).2
      rw [htail]

/-- Claim C8 (amended): the `Mod` built by `scan_mod`'s aggregation is
invariant under permutation of the file discovery order PROVIDED the
uppercased paths are pairwise distinct (which holds on case-insensitive
filesystems, but can fail on Linux, where `a` and `A` coexist). -/
theorem scan_mod_aggregate_perm_invariant (name : String) (l1 l2 : List File)
    (hperm : l1.Perm l2) (hnd : (l1.map fileKey).Nodup) :
    scanModAggregate name l1 = scanModAggregate name l2 := by
  have hsorteq : sortFiles l1 = sortFiles l2 := by
    apply sorted_nodupkeys_perm_eq
    · exact (List.perm_insertionSort fileLe l1).trans
        (hperm.trans (List.perm_insertionSort fileLe l2).symm)
    · exact List.sorted_insertionSort fileLe l1
    · exact List.sorted_insertionSort fileLe l2
    · exact (((List.perm_insertionSort fileLe l1).map fileKey).nodup_iff).mpr hnd
  rw [scanModAggregate, scanModAggregate, hsorteq]

/-- A file whose path is lowercase `a`, checksum all zeros. -/
def c8f1 : File :=
  { path := "a", length := 0, checksum := "00000000000000000000000000000000",
    type := FileType.file, parts := [] }

/-- A file whose path is uppercase `A` — a distinct sibling that uppercases
to the same sort key as `c8f1` — with a different checksum. -/
def c8f2 : File :=
  { path := "A", length := 0, checksum := "FFFFFFFFFFFFFFFFFFFFFFFFFFFFFFFF",
    type := FileType.file, parts := [] }

/-- Claim C8, counterexample: with two files whose uppercased paths tie
(`a` and `A`, both legal on a case-sensitive filesystem), the stable sort
preserves discovery order among them, so permuting the discovery order
changes the mod checksum. -/
theorem scan_mod_order_counterexample :
    [c8f1, c8f2].Perm [c8f2, c8f1]
    ∧ (scanModAggregate "@m" [c8f1, c8f2]).checksum
        ≠ (scanModAggregate "@m" [c8f2, c8f1]).checksum := by
  exact ⟨List.Perm.swap c8f2 c8f1 [], by decide⟩

/-- Files with distinct keys for the witness. -/
def c8g1 : File :=
  { path := "p.bin", length := 1, checksum := "11111111111111111111111111111111",
    type := FileType.file, parts := [] }

def c8g2 : File :=
  { path := "q.bin", length := 2, checksum := "22222222222222222222222222222222",
    type := FileType.file, parts := [] }

theorem scan_mod_aggregate_perm_invariant_witness :
    scanModAggregate "@w" [c8g1, c8g2] = scanModAggregate "@w" [c8g2, c8g1] :=
  scan_mod_aggregate_perm_invariant "@w" [c8g1, c8g2] [c8g2, c8g1]
    (List.Perm.swap c8g2 c8g1 []) (by decide)

/-! ## Legacy SRF codec (src/srf.rs) -/

/-- Split a character list at every occurrence of `sep`, keeping empty
pieces (Rust `str::split` semantics: splitting the empty string yields
one empty piece). -/
def splitOnChar (sep : Char) : List Char → List (List Char)
  | [] => [[]]
  | c :: cs =>
    if c = sep then [] :: splitOnChar sep cs
    else
      match splitOnChar sep cs with
      | [] => [[c]]
      | f :: rest => (c :: f) :: rest

/-- Strip one trailing carriage return (`BufRead::lines` behavior). -/
def stripCR (l : List Char) : List Char :=
  if l.getLast? = some '\r' then l.dropLast else l

/-- Rust `BufRead::lines`: newline-separated lines, no line for a trailing
newline, `\r\n` tolerated. -/
def rustLines (input : List Char) : List (List Char) :=
  let raw := splitOnChar '\n' input
  (if raw.getLast? = some [] then raw.dropLast else raw).map stripCR

/-- Rust `str::parse::<uN>` for an unsigned width with exclusive `bound`: an
optional leading `+`, one or more ASCII digits, overflow rejected. -/
def parseNatBounded (bound : Nat) (s : List Char) : Option Nat :=
  let digits := match s with
    | '+' :: rest => rest
    | _ => s
  if digits = [] then Option.none
  else if digits.all Char.isDigit then
    let v := digits.foldl (fun acc c => acc * 10 + (c.toNat - 48)) 0
    if v < bound then Option.some v else Option.none
  else Option.none

/-- Value of one hex character, upper or lower case (the `hex` crate). -/
def hexDigitVal (c : Char) : Option Nat :=
  if '0' ≤ c ∧ c ≤ '9' then Option.some (c.toNat - 48)
  else if 'a' ≤ c ∧ c ≤ 'f' then Option.some (c.toNat - 87)
  else if 'A' ≤ c ∧ c ≤ 'F' then Option.some (c.toNat - 55)
  else Option.none

/-- Hex decoding of a character list into bytes (`hex::decode_to_slice`
pair decoding). -/
def hexDecodeBytes : List Char → Option (List Nat)
  | [] => Option.some []
  | [_] => Option.none
  | c1 :: c2 :: rest =>
    match hexDigitVal c1, hexDigitVal c2, hexDecodeBytes rest with
    | Option.some h, Option.some l, Option.some bs => Option.some ((16 * h + l) :: bs)
    | _, _, _ => Option.none

/-- Rust `Md5Digest::new` (src/md5_digest.rs): decode exactly 32 hex characters
into 16 bytes. -/
def Md5Digest.new (s : List Char) : Option Md5Digest :=
  if s.length = 32 then (hexDecodeBytes s).map Md5Digest.mk else Option.none

/-- Rust `FileType::from_legacy_srf` (src/srf.rs). -/
def FileType.from_legacy_srf (ty : List Char) : Option FileType :=
  if ty = "PBO".data then Option.some FileType.pbo
  else if ty = "FILE".data then Option.some FileType.file
  else Option.none

/-- Rust `read_legacy_srf_addon` (src/srf.rs): `ADDON:<name>:<count>:<hex>`.
A wrong magic hits `panic!("wrong magic")`; a missing field or a bad
number/digest is an error.  The returned `Mod` has `files := []`. -/
def read_legacy_srf_addon (line : List Char) : Outcome (Mod × Nat) :=
  match splitOnChar ':' line with
  | [] => Outcome.err
  | ty :: rest =>
    if ty = "ADDON".data then
      match rest with
      | name :: size :: checksum :: _ =>
        match parseNatBounded (2 ^ 32) size with
        | Option.none => Outcome.err
        | Option.some n =>
          match Md5Digest.new checksum with
          | Option.none => Outcome.err
          | Option.some d =>
            Outcome.ok ({ name := String.mk name, checksum := d, files := [] }, n)
      | _ => Outcome.err
    else Outcome.panicked

/-- Rust `read_legacy_srf_part` (src/srf.rs): `<path>:<start>:<length>:<hex>`. -/
def read_legacy_srf_part (line : List Char) : Outcome Part :=
  match splitOnChar ':' line with
  | path :: start :: length :: checksum :: _ =>
    match parseNatBounded (2 ^ 64) start with
    | Option.none => Outcome.err
    | Option.some s =>
      match parseNatBounded (2 ^ 64) length with
      | Option.none => Outcome.err
      | Option.some l =>
        Outcome.ok { path := String.mk path, start := s, length := l,
                     checksum := String.mk checksum }
  | _ => Outcome.err

/-- The part loop of `read_legacy_srf_file` (src/srf.rs): consume
`count` part lines. -/
def readLegacyParts : Nat → List (List Char) → Outcome (List Part × List (List Char))
  | 0, lines => Outcome.ok ([], lines)
  | _ + 1, [] => Outcome.err
  | n + 1, line :: lines =>
    match read_legacy_srf_part line with
    | Outcome.err => Outcome.err
    | Outcome.panicked => Outcome.panicked
    | Outcome.ok p =>
      match readLegacyParts n lines with
      | Outcome.ok (ps, rest) => Outcome.ok (p :: ps, rest)
      | Outcome.err => Outcome.err
      | Outcome.panicked => Outcome.panicked

/-- Rust `read_legacy_srf_file` (src/srf.rs):
`<FILE|PBO>:<path>:<length>:<part_count>:<hex>` followed by its part
lines, taken from the shared line iterator. -/
def read_legacy_srf_file (line : List Char) (lines : List (List Char)) :
    Outcome (File × List (List Char)) :=
  match splitOnChar ':' line with
  | ty :: path :: length :: part_count :: checksum :: _ =>
    match FileType.from_legacy_srf ty with
    | Option.none => Outcome.err
    | Option.some t =>
      match parseNatBounded (2 ^ 64) length with
      | Option.none => Outcome.err
      | Option.some l =>
        match parseNatBounded (2 ^ 32) part_count with
        | Option.none => Outcome.err
        | Option.some pc =>
          match readLegacyParts pc lines with
          | Outcome.err => Outcome.err
          | Outcome.panicked => Outcome.panicked
          | Outcome.ok (parts, rest) =>
            Outcome.ok ({ path := String.mk path, length := l,
                          checksum := String.mk checksum, type := t,
                          parts := parts }, rest)
  | _ => Outcome.err

/-- The file loop of `deserialize_legacy_srf` (src/srf.rs): consume
`count` file records (each eating its own part lines). -/
def readLegacyFiles : Nat → List (List Char) → Outcome (List File × List (List Char))
  | 0, lines => Outcome.ok ([], lines)
  | _ + 1, [] => Outcome.err
  | n + 1, line :: lines =>
    match read_legacy_srf_file line lines with
    | Outcome.err => Outcome.err
    | Outcome.panicked => Outcome.panicked
    | Outcome.ok (f, rest) =>
      match readLegacyFiles n rest with
      | Outcome.ok (fs, r2) => Outcome.ok (f :: fs, r2)
      | Outcome.err => Outcome.err
      | Outcome.panicked => Outcome.panicked

/-- Rust `deserialize_legacy_srf` (src/srf.rs): rewind, read the `ADDON` line,
consume `file_count` file records — and return ONLY the addon value: the
parsed files are dropped on the floor (`files` stays empty). -/
def deserialize_legacy_srf (input : List Char) : Outcome Mod :=
  match rustLines input with
  | [] => Outcome.err
  | first :: rest =>
    match read_legacy_srf_addon first with
    | Outcome.err => Outcome.err
    | Outcome.panicked => Outcome.panicked
    | Outcome.ok (addon, file_count) =>
      match readLegacyFiles file_count rest with
      | Outcome.err => Outcome.err
      | Outcome.panicked => Outcome.panicked
      | Outcome.ok _ => Outcome.ok addon

theorem read_legacy_srf_addon_files_empty (line : List Char) (a : Mod) (n : Nat)
    (h : read_legacy_srf_addon line = Outcome.ok (a, n)) : a.files = [] := by
  rw [read_legacy_srf_addon] at h
  repeat' split at h
  all_goals try exact Outcome.noConfusion h
  injection h with h
  injection h with h1 h2
  rw [← h1]

/-- Claim C10: every input the legacy decoder accepts yields a `Mod` with
an empty `files` vector — the file and part records dictated by the
addon line's count are parsed (consuming lines, able to fail) and then
discarded. -/
theorem legacy_decoder_discards_files (input : List Char) (m : Mod)
    (h : deserialize_legacy_srf input = Outcome.ok m) : m.files = [] := by
  rw [deserialize_legacy_srf] at h
  cases hl : rustLines input with
  | nil => rw [hl] at h; exact Outcome.noConfusion h
  | cons first rest =>
    rw [hl] at h
    simp only [] at h
    cases ha : read_legacy_srf_addon first with
    | err => rw [ha] at h; exact Outcome.noConfusion h
    | panicked => rw [ha] at h; exact Outcome.noConfusion h
    | ok pr =>
      obtain ⟨addon, fc⟩ := pr
      rw [ha] at h
      simp only [] at h
      cases hf : readLegacyFiles fc rest with
      | err => rw [hf] at h; exact Outcome.noConfusion h
      | panicked => rw [hf] at h; exact Outcome.noConfusion h
      | ok u =>
        rw [hf] at h
        injection h with h
        subst h
        exact read_legacy_srf_addon_files_empty first addon fc ha

/-- A concrete legacy SRF accepted by the decoder. -/
def c10in : List Char :=
  "ADDON:@x:0:44C1B8021822F80E1E560689D2AAB0BF".data

theorem legacy_decoder_discards_files_witness :
    (match deserialize_legacy_srf c10in with
     | Outcome.ok m => m.files = []
     | Outcome.err => False
     | Outcome.panicked => False) := by
  cases hv : deserialize_legacy_srf c10in with
  | ok m => exact legacy_decoder_discards_files c10in m hv
  | err => exact absurd hv (by decide)
  | panicked => exact absurd hv (by decide)

/-! ## Legacy SRF encoder (modelled from the spec) and claim C2 -/

/-- Decimal digit characters of `n`, most significant first (fuel-driven;
the fuel strictly exceeds the recursion depth). -/
def natToDecGo : Nat → Nat → List Char
  | 0, _ => []
  | fuel + 1, n =>
    if n < 10 then [Char.ofNat (48 + n)]
    else natToDecGo fuel (n / 10) ++ [Char.ofNat (48 + n % 10)]

/-- Decimal rendering of `n` (`natToDec 0 = "0"`). -/
def natToDec (n : Nat) : List Char := natToDecGo (n + 1) n

/-- Modelled from the spec: one part record of the legacy SRF encoder
(`<path>:<start>:<length>:<checksum_hex>`); the encoder itself is not in
this repository — the upstream tool writes the format and the repository
only decodes it. -/
def encodeLegacyPart (p : Part) : List Char :=
  p.path.data ++ ':' :: natToDec p.start ++ ':' :: natToDec p.length
    ++ ':' :: p.checksum.data ++ ['\n']

/-- Modelled from the spec: one file record of the legacy SRF encoder
(`<FILE|PBO>:<path>:<length>:<part_count>:<file_checksum_hex>` followed
by its part records). -/
def encodeLegacyFile (f : File) : List Char :=
  (match f.type with
   | FileType.pbo => "PBO".data
   | FileType.file => "FILE".data)
    ++ ':' :: f.path.data ++ ':' :: natToDec f.length
    ++ ':' :: natToDec f.parts.length ++ ':' :: f.checksum.data ++ ['\n']
    ++ (f.parts.map encodeLegacyPart).flatten

/-- Modelled from the spec: the legacy line-oriented SRF encoder
(`ADDON:<name>:<file_count>:<mod_checksum_hex>` followed by the file
records). -/
def encodeLegacySrf (m : Mod) : List Char :=
  "ADDON".data ++ ':' :: m.name.data ++ ':' :: natToDec m.files.length
    ++ ':' :: hexUpperChars m.checksum.inner ++ ['\n']
    ++ (m.files.map encodeLegacyFile).flatten

/-- A well-formed digest value: 16 bytes, each below 256. -/
def digestWf (d : Md5Digest) : Prop :=
  d.inner.length = 16 ∧ ∀ b ∈ d.inner, b < 256

theorem mem_of_getLast? {α : Type} :
    ∀ (l : List α) (a : α), l.getLast? = some a → a ∈ l := by
  intro l
  induction l with
  | nil => intro a h; exact Option.noConfusion h
  | cons x t ih =>
    intro a h
    cases t with
    | nil =>
      rw [List.getLast?_singleton] at h
      injection h with h
      exact List.mem_singleton.mpr h.symm
    | cons y t2 =>
      rw [List.getLast?_cons_cons] at h
      exact List.mem_cons_of_mem x (ih a h)

theorem stripCR_no_cr (l : List Char) (h : '\r' ∉ l) : stripCR l = l := by
  rw [stripCR]
  cases hl : l.getLast? with
  | none =>
    rw [if_neg (fun hcon => Option.noConfusion hcon)]
  | some c =>
    by_cases hc : c = '\r'
    · subst hc
      exact absurd (mem_of_getLast? l '\r' hl) h
    · rw [if_neg (fun hcon => by
        injection hcon with hcc
        exact hc hcc)]

theorem splitOnChar_not_mem (sep : Char) :
    ∀ xs : List Char, sep ∉ xs → splitOnChar sep xs = [xs] := by
  intro xs
  induction xs with
  | nil => intro _; rfl
  | cons c cs ih =>
    intro h
    rw [splitOnChar,
      if_neg (fun he => h (by rw [← he]; exact List.mem_cons_self c cs)),
      ih (fun hm => h (List.mem_cons_of_mem c hm))]

theorem splitOnChar_append (sep : Char) :
    ∀ xs ys : List Char, sep ∉ xs →
      splitOnChar sep (xs ++ sep :: ys) = xs :: splitOnChar sep ys := by
  intro xs
  induction xs with
  | nil =>
    intro ys _
    show splitOnChar sep (sep :: ys) = [] :: splitOnChar sep ys
    rw [splitOnChar, if_pos rfl]
  | cons c cs ih =>
    intro ys h
    show splitOnChar sep (c :: (cs ++ sep :: ys)) = (c :: cs) :: splitOnChar sep ys
    rw [splitOnChar,
      if_neg (fun he => h (by rw [← he]; exact List.mem_cons_self c cs)),
      ih ys (fun hm => h (List.mem_cons_of_mem c hm))]

theorem hexDigitChar_spec (d : Nat) (hd : d < 16) :
    hexDigitVal (hexDigitChar d) = Option.some d
    ∧ hexDigitChar d ≠ ':' ∧ hexDigitChar d ≠ '\n' ∧ hexDigitChar d ≠ '\r' := by
  interval_cases d <;> exact ⟨by decide, by decide, by decide, by decide⟩

theorem hexUpperChars_length :
    ∀ bs : List Nat, (hexUpperChars bs).length = 2 * bs.length := by
  intro bs
  induction bs with
  | nil => rfl
  | cons b t ih =>
    show (byteHexChars b ++ hexUpperChars t).length = 2 * (b :: t).length
    rw [List.length_append, ih]
    simp only [byteHexChars, List.length_cons, List.length_nil, List.length_cons]
    omega

theorem hexDecodeBytes_hexUpperChars :
    ∀ bs : List Nat, (∀ b ∈ bs, b < 256) →
      hexDecodeBytes (hexUpperChars bs) = Option.some bs := by
  intro bs
  induction bs with
  | nil => intro _; rfl
  | cons b t ih =>
    intro h
    have hb : b < 256 := h b (List.mem_cons_self b t)
    have hhi : b / 16 < 16 := by omega
    have hlo : b % 16 < 16 := by omega
    have hrecomp : 16 * (b / 16) + b % 16 = b := by omega
    show hexDecodeBytes (hexDigitChar (b / 16) :: hexDigitChar (b % 16)
      :: hexUpperChars t) = Option.some (b :: t)
    rw [hexDecodeBytes, (hexDigitChar_spec _ hhi).1, (hexDigitChar_spec _ hlo).1,
      ih (fun x hx => h x (List.mem_cons_of_mem b hx))]
    show Option.some ((16 * (b / 16) + b % 16) :: t) = Option.some (b :: t)
    rw [hrecomp]

theorem mem_hexUpperChars (c : Char) :
    ∀ bs : List Nat, (∀ b ∈ bs, b < 256) → c ∈ hexUpperChars bs →
      ∃ d, d < 16 ∧ c = hexDigitChar d := by
  intro bs
  induction bs with
  | nil => intro _ hm; exact absurd hm (List.not_mem_nil c)
  | cons b t ih =>
    intro h hm
    have hb : b < 256 := h b (List.mem_cons_self b t)
    have : c ∈ hexDigitChar (b / 16) :: hexDigitChar (b % 16) :: hexUpperChars t := hm
    rcases List.mem_cons.mp this with hc | hc
    · exact ⟨b / 16, by omega, hc⟩
    · rcases List.mem_cons.mp hc with hc2 | hc2
      · exact ⟨b % 16, by omega, hc2⟩
      · exact ih (fun x hx => h x (List.mem_cons_of_mem b hx)) hc2

theorem colon_not_mem_hexUpperChars (bs : List Nat) (h : ∀ b ∈ bs, b < 256) :
    ':' ∉ hexUpperChars bs := by
  intro hm
  obtain ⟨d, hd, hc⟩ := mem_hexUpperChars ':' bs h hm
  exact (hexDigitChar_spec d hd).2.1 hc.symm

theorem newline_not_mem_hexUpperChars (bs : List Nat) (h : ∀ b ∈ bs, b < 256) :
    '\n' ∉ hexUpperChars bs := by
  intro hm
  obtain ⟨d, hd, hc⟩ := mem_hexUpperChars '\n' bs h hm
  exact (hexDigitChar_spec d hd).2.2.1 hc.symm

theorem cr_not_mem_hexUpperChars (bs : List Nat) (h : ∀ b ∈ bs, b < 256) :
    '\r' ∉ hexUpperChars bs := by
  intro hm
  obtain ⟨d, hd, hc⟩ := mem_hexUpperChars '\r' bs h hm
  exact (hexDigitChar_spec d hd).2.2.2 hc.symm

theorem rustLines_single (line : List Char) (h1 : '\n' ∉ line) (h2 : '\r' ∉ line) :
    rustLines (line ++ '\n' :: []) = [line] := by
  rw [rustLines, splitOnChar_append '\n' line [] h1]
  show (if (line :: [[]] : List (List Char)).getLast? = some []
    then (line :: [[]] : List (List Char)).dropLast
    else line :: [[]]).map stripCR = [line]
  rw [List.getLast?_cons_cons, List.getLast?_singleton, if_pos rfl]
  show [stripCR line] = [line]
  rw [stripCR_no_cr line h2]

/-- The legacy round trip for a mod with no files: the encoder emits only
the `ADDON` line, which the decoder parses back to the identical `Mod`. -/
theorem legacy_roundtrip_empty (m : Mod) (hf : m.files = [])
    (hn1 : ':' ∉ m.name.data) (hn2 : '\n' ∉ m.name.data) (hn3 : '\r' ∉ m.name.data)
    (hd : digestWf m.checksum) :
    deserialize_legacy_srf (encodeLegacySrf m) = Outcome.ok m := by
  obtain ⟨name, checksum, files⟩ := m
  simp only [] at hf hn1 hn2 hn3 hd
  subst hf
  have henc : encodeLegacySrf ⟨name, checksum, []⟩
      = ("ADDON".data ++ ':' :: (name.data ++ ':' :: (natToDec 0
          ++ ':' :: hexUpperChars checksum.inner))) ++ '\n' :: [] := by
    simp only [encodeLegacySrf, List.length_nil, List.map_nil, List.flatten_nil,
      List.append_nil, List.cons_append, List.append_assoc]
  have hnd0 : natToDec 0 = ['0'] := rfl
  have hnl : '\n' ∉ ("ADDON".data ++ ':' :: (name.data ++ ':' :: (natToDec 0
      ++ ':' :: hexUpperChars checksum.inner))) := by
    intro hmem
    rw [hnd0] at hmem
    simp only [List.mem_append, List.mem_cons] at hmem
    rcases hmem with h | h | h | h | h | h | h
    · exact absurd h (by decide)
    · exact absurd h (by decide)
    · exact hn2 h
    · exact absurd h (by decide)
    · exact absurd h (by decide)
    · exact absurd h (by decide)
    · exact newline_not_mem_hexUpperChars checksum.inner hd.2 h
  have hncr : '\r' ∉ ("ADDON".data ++ ':' :: (name.data ++ ':' :: (natToDec 0
      ++ ':' :: hexUpperChars checksum.inner))) := by
    intro hmem
    rw [hnd0] at hmem
    simp only [List.mem_append, List.mem_cons] at hmem
    rcases hmem with h | h | h | h | h | h | h
    · exact absurd h (by decide)
    · exact absurd h (by decide)
    · exact hn3 h
    · exact absurd h (by decide)
    · exact absurd h (by decide)
    · exact absurd h (by decide)
    · exact cr_not_mem_hexUpperChars checksum.inner hd.2 h
  have hsplit : splitOnChar ':' ("ADDON".data ++ ':' :: (name.data
      ++ ':' :: (natToDec 0 ++ ':' :: hexUpperChars checksum.inner)))
      = ["ADDON".data, name.data, natToDec 0, hexUpperChars checksum.inner] := by
    rw [splitOnChar_append ':' "ADDON".data _ (by decide),
      splitOnChar_append ':' name.data _ hn1,
      splitOnChar_append ':' (natToDec 0) _ (by rw [hnd0]; decide),
      splitOnChar_not_mem ':' _ (colon_not_mem_hexUpperChars checksum.inner hd.2)]
  have hp0 : parseNatBounded (2 ^ 32) (natToDec 0) = Option.some 0 := by decide
  have hmd : Md5Digest.new (hexUpperChars checksum.inner) = Option.some checksum := by
    rw [Md5Digest.new, hexUpperChars_length, hd.1, if_pos (by decide),
      hexDecodeBytes_hexUpperChars _ hd.2]
    rfl
  have haddon : read_legacy_srf_addon ("ADDON".data ++ ':' :: (name.data
      ++ ':' :: (natToDec 0 ++ ':' :: hexUpperChars checksum.inner)))
      = Outcome.ok (⟨name, checksum, []⟩, 0) := by
    rw [read_legacy_srf_addon, hsplit]
    simp only []
    rw [if_true, hp0]
    simp only []
    rw [hmd]
  rw [deserialize_legacy_srf, henc,
    rustLines_single _ hnl hncr]
  simp only []
  rw [haddon]
  rfl

/-! ## Canonical JSON SRF codec (serde derives in src/srf.rs, modelled at
the JSON document level; the text layer is the external serde_json crate) -/

/-- A JSON document value. -/
inductive Json where
  | str (s : String)
  | num (n : Nat)
  | arr (xs : List Json)
  | obj (fields : List (String × Json))

/-- Serde serialization of `Part` (PascalCase field names). -/
def encodeJsonPart (p : Part) : Json :=
  Json.obj [("Path", Json.str p.path), ("Length", Json.num p.length),
            ("Start", Json.num p.start), ("Checksum", Json.str p.checksum)]

/-- Serde serialization of `FileType`: the renamed unit variants. -/
def encodeFileType : FileType → Json
  | FileType.file => Json.str "SwiftyFile"
  | FileType.pbo => Json.str "SwiftyPboFile"

/-- Serde serialization of `File`. -/
def encodeJsonFile (f : File) : Json :=
  Json.obj [("Path", Json.str f.path), ("Length", Json.num f.length),
            ("Checksum", Json.str f.checksum), ("Type", encodeFileType f.type),
            ("Parts", Json.arr (f.parts.map encodeJsonPart))]

/-- Serde serialization of `Mod` (the digest as its uppercase hex form). -/
def encodeJsonMod (m : Mod) : Json :=
  Json.obj [("Name", Json.str m.name),
            ("Checksum", Json.str (hexUpper m.checksum.inner)),
            ("Files", Json.arr (m.files.map encodeJsonFile))]

/-- Field lookup in a JSON object (serde accepts fields in any order). -/
def jlookup (fields : List (String × Json)) (key : String) : Option Json :=
  match fields with
  | [] => Option.none
  | (k, v) :: rest => if k = key then Option.some v else jlookup rest key

/-- Decode a JSON string. -/
def decodeStr : Json → Option String
  | Json.str s => Option.some s
  | _ => Option.none

/-- Decode a `u64` (serde_json rejects numbers beyond the integer
width). -/
def decodeNumU64 : Json → Option Nat
  | Json.num n => if n < 2 ^ 64 then Option.some n else Option.none
  | _ => Option.none

/-- Rust `deserialize_relative_pathbuf` (src/srf.rs): backslashes normalize to
forward slashes on input. -/
def deserialize_relative_pathbuf (s : String) : String :=
  String.mk (s.data.map (fun c => if c = '\\' then '/' else c))

/-- Deserialization of `FileType`. -/
def decodeFileType (j : Json) : Option FileType :=
  match j with
  | Json.str s =>
    if s = "SwiftyFile" then Option.some FileType.file
    else if s = "SwiftyPboFile" then Option.some FileType.pbo
    else Option.none
  | _ => Option.none

/-- Option-valued traversal (serde sequence decoding). -/
def mapMOpt {α β : Type} (f : α → Option β) : List α → Option (List β)
  | [] => Option.some []
  | x :: xs =>
    match f x, mapMOpt f xs with
    | Option.some y, Option.some ys => Option.some (y :: ys)
    | _, _ => Option.none

/-- Serde deserialization of `Part`. -/
def decodeJsonPart (j : Json) : Option Part :=
  match j with
  | Json.obj fields =>
    match jlookup fields "Path", jlookup fields "Length",
        jlookup fields "Start", jlookup fields "Checksum" with
    | Option.some jp, Option.some jl, Option.some js, Option.some jc =>
      match decodeStr jp, decodeNumU64 jl, decodeNumU64 js, decodeStr jc with
      | Option.some p, Option.some l, Option.some s, Option.some c =>
        Option.some { path := p, length := l, start := s, checksum := c }
      | _, _, _, _ => Option.none
    | _, _, _, _ => Option.none
  | _ => Option.none

/-- Serde deserialization of `File` (the path field through
`deserialize_relative_pathbuf`). -/
def decodeJsonFile (j : Json) : Option File :=
  match j with
  | Json.obj fields =>
    match jlookup fields "Path", jlookup fields "Length",
        jlookup fields "Checksum", jlookup fields "Type",
        jlookup fields "Parts" with
    | Option.some jp, Option.some jl, Option.some jc, Option.some jt,
        Option.some jps =>
      match decodeStr jp, decodeNumU64 jl, decodeStr jc, decodeFileType jt, jps with
      | Option.some p, Option.some l, Option.some c, Option.some t,
          Json.arr xs =>
        match mapMOpt decodeJsonPart xs with
        | Option.some parts =>
          Option.some { path := deserialize_relative_pathbuf p, length := l,
                        checksum := c, type := t, parts := parts }
        | Option.none => Option.none
      | _, _, _, _, _ => Option.none
    | _, _, _, _, _ => Option.none
  | _ => Option.none

/-- Serde deserialization of `Mod` (the digest via hex decoding, as in
`Md5Digest`'s `Deserialize` impl). -/
def decodeJsonMod (j : Json) : Option Mod :=
  match j with
  | Json.obj fields =>
    match jlookup fields "Name", jlookup fields "Checksum",
        jlookup fields "Files" with
    | Option.some jn, Option.some jc, Option.some jf =>
      match decodeStr jn, decodeStr jc, jf with
      | Option.some n, Option.some c, Json.arr xs =>
        match Md5Digest.new c.data, mapMOpt decodeJsonFile xs with
        | Option.some d, Option.some files =>
          Option.some { name := n, checksum := d, files := files }
        | _, _ => Option.none
      | _, _, _ => Option.none
    | _, _, _ => Option.none
  | _ => Option.none

/-- JSON-representable `File`: no backslash in the path (decoding
normalizes them away) and all counters within u64. -/
def fileJsonWf (f : File) : Prop :=
  '\\' ∉ f.path.data ∧ f.length < 2 ^ 64
    ∧ ∀ p ∈ f.parts, p.length < 2 ^ 64 ∧ p.start < 2 ^ 64

/-- JSON-representable `Mod`. -/
def modJsonWf (m : Mod) : Prop :=
  digestWf m.checksum ∧ ∀ f ∈ m.files, fileJsonWf f

instance (d : Md5Digest) : Decidable (digestWf d) := by
  unfold digestWf
  infer_instance

instance (f : File) : Decidable (fileJsonWf f) := by
  unfold fileJsonWf
  infer_instance

instance (m : Mod) : Decidable (modJsonWf m) := by
  unfold modJsonWf
  infer_instance

theorem jlookup_head (k : String) (v : Json) (rest : List (String × Json)) :
    jlookup ((k, v) :: rest) k = Option.some v := by
  rw [jlookup, if_pos rfl]

theorem jlookup_tail (k k' : String) (v : Json) (rest : List (String × Json))
    (h : ¬ k = k') : jlookup ((k, v) :: rest) k' = jlookup rest k' := by
  rw [jlookup, if_neg h]

theorem mapMOpt_roundtrip {α β : Type} (enc : α → β) (dec : β → Option α) :
    ∀ l : List α, (∀ x ∈ l, dec (enc x) = Option.some x) →
      mapMOpt dec (l.map enc) = Option.some l := by
  intro l
  induction l with
  | nil => intro _; rfl
  | cons x t ih =>
    intro h
    show mapMOpt dec (enc x :: t.map enc) = Option.some (x :: t)
    rw [mapMOpt, h x (List.mem_cons_self x t),
      ih (fun y hy => h y (List.mem_cons_of_mem x hy))]

theorem map_no_backslash (l : List Char) (h : '\\' ∉ l) :
    l.map (fun c => if c = '\\' then '/' else c) = l := by
  induction l with
  | nil => rfl
  | cons c cs ih =>
    rw [List.map_cons]
    show (if c = '\\' then '/' else c) :: cs.map (fun c => if c = '\\' then '/' else c)
      = c :: cs
    rw [if_neg (fun he => h (by rw [← he]; exact List.mem_cons_self c cs)),
      ih (fun hm => h (List.mem_cons_of_mem c hm))]

theorem md5digest_new_hexUpperChars (d : Md5Digest) (hd : digestWf d) :
    Md5Digest.new (hexUpperChars d.inner) = Option.some d := by
  rw [Md5Digest.new, hexUpperChars_length, hd.1, if_pos (by decide),
    hexDecodeBytes_hexUpperChars _ hd.2]
  rfl

theorem decodeFileType_encodeFileType (t : FileType) :
    decodeFileType (encodeFileType t) = Option.some t := by
  cases t <;> rfl

theorem decode_encode_part (p : Part) (hl : p.length < 2 ^ 64)
    (hs : p.start < 2 ^ 64) :
    decodeJsonPart (encodeJsonPart p) = Option.some p := by
  rw [encodeJsonPart, decodeJsonPart]
  rw [jlookup_head,
    jlookup_tail "Path" "Length" _ _ (by decide), jlookup_head,
    jlookup_tail "Path" "Start" _ _ (by decide),
    jlookup_tail "Length" "Start" _ _ (by decide), jlookup_head,
    jlookup_tail "Path" "Checksum" _ _ (by decide),
    jlookup_tail "Length" "Checksum" _ _ (by decide),
    jlookup_tail "Start" "Checksum" _ _ (by decide), jlookup_head]
  simp only [decodeStr, decodeNumU64]
  rw [if_pos hl, if_pos hs]

theorem decode_encode_file (f : File) (hwf : fileJsonWf f) :
    decodeJsonFile (encodeJsonFile f) = Option.some f := by
  have hpath : deserialize_relative_pathbuf f.path = f.path := by
    rw [deserialize_relative_pathbuf, map_no_backslash _ hwf.1]
  have hparts : mapMOpt decodeJsonPart (f.parts.map encodeJsonPart)
      = Option.some f.parts :=
    mapMOpt_roundtrip encodeJsonPart decodeJsonPart f.parts
      (fun p hp => decode_encode_part p (hwf.2.2 p hp).1 (hwf.2.2 p hp).2)
  rw [encodeJsonFile, decodeJsonFile]
  rw [jlookup_head,
    jlookup_tail "Path" "Length" _ _ (by decide), jlookup_head,
    jlookup_tail "Path" "Checksum" _ _ (by decide),
    jlookup_tail "Length" "Checksum" _ _ (by decide), jlookup_head,
    jlookup_tail "Path" "Type" _ _ (by decide),
    jlookup_tail "Length" "Type" _ _ (by decide),
    jlookup_tail "Checksum" "Type" _ _ (by decide), jlookup_head,
    jlookup_tail "Path" "Parts" _ _ (by decide),
    jlookup_tail "Length" "Parts" _ _ (by decide),
    jlookup_tail "Checksum" "Parts" _ _ (by decide),
    jlookup_tail "Type" "Parts" _ _ (by decide), jlookup_head]
  simp only []
  rw [decodeFileType_encodeFileType]
  simp only [decodeStr, decodeNumU64]
  rw [if_pos hwf.2.1]
  simp only []
  rw [hparts]
  simp only []
  rw [hpath]

theorem decode_encode_mod (m : Mod) (hwf : modJsonWf m) :
    decodeJsonMod (encodeJsonMod m) = Option.some m := by
  have hfiles : mapMOpt decodeJsonFile (m.files.map encodeJsonFile)
      = Option.some m.files :=
    mapMOpt_roundtrip encodeJsonFile decodeJsonFile m.files
      (fun f hf => decode_encode_file f (hwf.2 f hf))
  have hdig : Md5Digest.new (hexUpper m.checksum.inner).data
      = Option.some m.checksum := by
    show Md5Digest.new (hexUpperChars m.checksum.inner) = Option.some m.checksum
    exact md5digest_new_hexUpperChars m.checksum hwf.1
  rw [encodeJsonMod, decodeJsonMod]
  rw [jlookup_head,
    jlookup_tail "Name" "Checksum" _ _ (by decide), jlookup_head,
    jlookup_tail "Name" "Files" _ _ (by decide),
    jlookup_tail "Checksum" "Files" _ _ (by decide), jlookup_head]
  simp only [decodeStr]
  rw [hdig, hfiles]

/-- Claim C2 (amended): round-tripping holds for the canonical JSON codec
on JSON-representable mods (backslash-free file paths, u64-ranged
counters, well-formed digest); for the legacy codec it holds exactly on
mods with no files — the legacy decoder parses and then discards the
file records, so a mod that has files never round-trips. -/
theorem srf_codec_roundtrip :
    (∀ m : Mod, modJsonWf m → decodeJsonMod (encodeJsonMod m) = Option.some m)
    ∧ (∀ m : Mod, m.files = [] → ':' ∉ m.name.data → '\n' ∉ m.name.data →
        '\r' ∉ m.name.data → digestWf m.checksum →
        deserialize_legacy_srf (encodeLegacySrf m) = Outcome.ok m) :=
  ⟨fun m h => decode_encode_mod m h,
   fun m hf h1 h2 h3 hd => legacy_roundtrip_empty m hf h1 h2 h3 hd⟩

/-- A mod carrying one file, for the legacy round-trip counterexample. -/
def c2mod : Mod :=
  { name := "@cba",
    checksum := ⟨List.replicate 16 0xAB⟩,
    files := [{ path := "x.bin", length := 3,
                checksum := "0123456789ABCDEF0123456789ABCDEF",
                type := FileType.file, parts := [] }] }

/-- Claim C2, counterexample: the legacy decoder returns the addon with
`files` emptied, so `decode (encode c2mod)` is not `c2mod`. -/
theorem legacy_roundtrip_counterexample :
    deserialize_legacy_srf (encodeLegacySrf c2mod)
      = Outcome.ok { c2mod with files := [] }
    ∧ deserialize_legacy_srf (encodeLegacySrf c2mod) ≠ Outcome.ok c2mod := by
  refine ⟨by decide, by decide⟩

/-- A JSON-representable mod with one PBO file and one part. -/
def c2wit : Mod :=
  { name := "@json",
    checksum := ⟨List.replicate 16 1⟩,
    files := [{ path := "a/b.bin", length := 5, checksum := "AA",
                type := FileType.pbo,
                parts := [{ path := "q", length := 1, start := 0,
                            checksum := "BB" }] }] }

/-- A file-less mod for the legacy half of the witness. -/
def c2wit0 : Mod :=
  { name := "@legacy", checksum := ⟨List.replicate 16 2⟩, files := [] }

theorem srf_codec_roundtrip_witness :
    decodeJsonMod (encodeJsonMod c2wit) = Option.some c2wit
    ∧ deserialize_legacy_srf (encodeLegacySrf c2wit0) = Outcome.ok c2wit0 :=
  ⟨srf_codec_roundtrip.1 c2wit (by decide),
   srf_codec_roundtrip.2 c2wit0 rfl (by decide) (by decide) (by decide) (by decide)⟩

/-! ## Repository, mod cache and differ
(src/repository.rs, src/mod_cache.rs, src/commands/sync.rs) -/

/-- Rust `Server` (src/repository.rs); the IP address kept as its string form. -/
structure Server where
  name : String
  address : String
  port : Nat
  password : String
  battle_eye : Bool
deriving DecidableEq

/-- Rust `repository::Mod` (src/repository.rs).  The on-wire `checkSum` is a
hex string; `sync.rs` compares it directly against the cache's
`Md5Digest` keys (the tree's revisions differ on the representation), so
it is modelled as a digest value. -/
structure RepoMod where
  mod_name : String
  checksum : Md5Digest
  enabled : Bool
deriving DecidableEq

/-- Rust `Repository` (src/repository.rs). -/
structure Repository where
  repo_name : String
  checksum : String
  required_mods : List RepoMod
  optional_mods : List RepoMod
  client_parameters : String
  repo_basic_authentication : Option (String × String)
  version : String
  servers : List Server
deriving DecidableEq

/-- Rust `mod_cache::Mod`: the identity stored per digest. -/
structure CacheMod where
  name : String
deriving DecidableEq

/-- Rust `ModCache` (src/mod_cache.rs): version pinned to 1 and the digest
map (a `HashMap`, modelled as an association list). -/
structure ModCache where
  version : Nat
  mods : List (Md5Digest × CacheMod)
deriving DecidableEq

/-- Rust `HashMap::contains_key` on the association-list model. -/
def ModCache.containsKey (c : ModCache) (d : Md5Digest) : Bool :=
  c.mods.any (fun kv => kv.1 = d)

/-- Rust `diff_repo` (src/commands/sync.rs): push every required mod whose
checksum is not a cache key, in order; the repo-level checksum and the
optional mods are never consulted. -/
def diff_repo (mod_cache : ModCache) (remote_repo : Repository) : List RepoMod :=
  remote_repo.required_mods.foldl
    (fun downloads m =>
      if mod_cache.containsKey m.checksum then downloads else downloads ++ [m])
    []

theorem diff_repo_foldl (cache : ModCache) :
    ∀ (l : List RepoMod) (acc : List RepoMod),
      l.foldl (fun downloads m =>
        if cache.containsKey m.checksum then downloads else downloads ++ [m]) acc
        = acc ++ l.filter (fun m => !(cache.containsKey m.checksum)) := by
  intro l
  induction l with
  | nil => intro acc; rw [List.foldl_nil, List.filter_nil, List.append_nil]
  | cons m t ih =>
    intro acc
    rw [List.foldl_cons, List.filter_cons]
    cases hc : cache.containsKey m.checksum with
    | true => simp [hc, ih]
    | false => simp [hc, ih]

/-- Claim C4: `diff_repo` returns exactly the order-preserving subset of
`required_mods` whose checksum is not a key of the cache's mods map; the
repository-level checksum and the optional mods never influence the
result. -/
theorem diff_repo_spec (cache : ModCache) (repo : Repository) :
    diff_repo cache repo
      = repo.required_mods.filter (fun m => !(cache.containsKey m.checksum))
    ∧ (∀ (ck : String) (om : List RepoMod),
        diff_repo cache
          { repo with checksum := ck, optional_mods := om }
          = diff_repo cache repo) := by
  constructor
  · rw [diff_repo, diff_repo_foldl cache repo.required_mods []]
    rfl
  · intro ck om
    rfl

/-! ## diff_mod and sync (src/commands/sync.rs); claims C5 and C3 -/

/-- Association-list lookup (`HashMap::get`). -/
def lookupAssoc {α β : Type} [DecidableEq α] : List (α × β) → α → Option β
  | [], _ => Option.none
  | (k, v) :: rest, key => if k = key then Option.some v else lookupAssoc rest key

/-- Association-list removal (`HashMap::remove`). -/
def removeAssoc {α β : Type} [DecidableEq α] (l : List (α × β)) (k : α) :
    List (α × β) :=
  l.filter (fun kv => !(kv.1 = k : Bool))

/-- Rust `HashMap::insert`: replace an existing key in place or append. -/
def insertAssoc {α β : Type} [DecidableEq α] : List (α × β) → α → β → List (α × β)
  | [], k, v => [(k, v)]
  | (k', v') :: rest, k, v =>
    if k' = k then (k, v) :: rest else (k', v') :: insertAssoc rest k v

/-- The path-keyed file maps of `diff_mod` (src/commands/sync.rs).  The
source `HashMap` has unspecified iteration order; the model fixes
insertion order. -/
def buildFileMap (files : List File) : List (String × File) :=
  files.foldl (fun m f => insertAssoc m f.path f) []

/-- Rust `DownloadCommand` (src/commands/sync.rs); the range fields are
reserved for future intra-file diffing and always span the whole file. -/
structure DownloadCommand where
  file : String
  begin_ : Nat
  end_ : Nat
deriving DecidableEq

/-- The `remote_files.drain()` loop of `diff_mod` (src/commands/sync.rs):
for each remote file, pop the matching local file; a missing local file
or a checksum mismatch emits a whole-file download command.  Returns the
commands and the local files that were never popped. -/
def drainLoop (name : String) :
    List (String × File) → List (String × File) →
      List DownloadCommand × List (String × File)
  | [], local_files => ([], local_files)
  | (path, file) :: rest, local_files =>
    let tail := drainLoop name rest (removeAssoc local_files path)
    match lookupAssoc local_files path with
    | Option.some local_file =>
      if file.checksum = local_file.checksum then tail
      else ({ file := name ++ "/" ++ path, begin_ := 0, end_ := file.length }
        :: tail.1, tail.2)
    | Option.none =>
      ({ file := name ++ "/" ++ path, begin_ := 0, end_ := file.length }
        :: tail.1, tail.2)

/-- The per-mod local state `diff_mod` consults: the decoded `mod.srf`
when that file exists (`none` models NotFound, which triggers a rescan),
and the `Mod` a fresh `scan_mod` would produce.  Remote transport and SRF
decoding are modelled as already-decoded values — both are verified
separately. -/
structure LocalDir where
  srf : Option Mod
  scanned : Mod
deriving DecidableEq

/-- The inputs `sync` draws on: the fetched remote repository, the
per-mod remote SRFs, the content of `nimble-cache.json` (`none` models
the NotFound open failure, which makes `open_cache_or_gen_srf` run
`gen_srf`; other open and decode failures abort before any effect and
are transport-level, like the remote fetch), and the local mod
directories (absence from `locals` models a missing directory). -/
structure SyncWorld where
  repo : Repository
  remoteSrfs : List (String × Mod)
  cacheFile : Option ModCache
  locals : List (String × LocalDir)
deriving DecidableEq

/-- Rust `diff_mod` (src/commands/sync.rs): fetch the remote SRF, choose the
local SRF (placeholder for a missing directory / decoded `mod.srf` /
fresh scan), return no work when the checksums agree, otherwise diff the
path-keyed maps.  `remove_leftover_files` runs INSIDE `diff_mod`, so the
leftover deletions (paths `<mod name>/<file path>`) are part of its
result here, already performed by the time it returns. -/
def diff_mod (world : SyncWorld) (remote_mod : RepoMod) :
    Outcome (List DownloadCommand × List String) :=
  match lookupAssoc world.remoteSrfs remote_mod.mod_name with
  | Option.none => Outcome.err
  | Option.some remote_srf =>
    let local_srf :=
      match lookupAssoc world.locals remote_mod.mod_name with
      | Option.none => Mod.generate_invalid remote_srf
      | Option.some dir =>
        match dir.srf with
        | Option.some m => m
        | Option.none => dir.scanned
    if local_srf.checksum = remote_srf.checksum then Outcome.ok ([], [])
    else
      let drained := drainLoop remote_srf.name
        (buildFileMap remote_srf.files) (buildFileMap local_srf.files)
      Outcome.ok (drained.1,
        drained.2.map (fun kv => remote_srf.name ++ "/" ++ kv.2.path))

/-- A filesystem effect of `sync`. -/
inductive Effect where
  | deleteFile (path : String)
  | writeFile (path : String)
  | writeCache
deriving DecidableEq

/-- Rust `str::starts_with` on the char pattern `gen_srf` uses: does the
directory name begin with an at sign. -/
def startsWithAt (s : String) : Bool :=
  match s.data with
  | [] => false
  | c :: _ => c = '@'

/-- The depth-1 directories `gen_srf` (src/commands/gen_srf.rs) walks:
those whose name starts with an at sign. -/
def genSrfDirs (locals : List (String × LocalDir)) : List (String × LocalDir) :=
  locals.filter (fun kv => startsWithAt kv.1)

/-- The cache `gen_srf` builds: version 1 and one entry per walked
directory, keyed by the checksum of a fresh `scan_mod` of it and
carrying the scanned mod's name (a `HashMap` collected from a parallel
walk in the source, so its order is unspecified; the model fixes
insertion order). -/
def genSrfCache (locals : List (String × LocalDir)) : ModCache :=
  { version := 1,
    mods := (genSrfDirs locals).foldl
      (fun m kv => insertAssoc m kv.2.scanned.checksum { name := kv.2.scanned.name })
      [] }

/-- The filesystem effects of `gen_srf`: `gen_srf_for_mod` writes a
`mod.srf` into every walked directory, then the cache is serialized to
`nimble-cache.json`. -/
def genSrfEffects (locals : List (String × LocalDir)) : List Effect :=
  (genSrfDirs locals).map (fun kv => Effect.writeFile (kv.1 ++ "/mod.srf"))
    ++ [Effect.writeCache]

/-- The local state after `gen_srf`: every walked directory holds a
fresh `mod.srf` whose content is its scan result. -/
def genSrfLocals (locals : List (String × LocalDir)) : List (String × LocalDir) :=
  locals.map (fun kv =>
    if startsWithAt kv.1
    then (kv.1, ({ srf := Option.some kv.2.scanned,
                   scanned := kv.2.scanned } : LocalDir))
    else kv)

/-- Rust `open_cache_or_gen_srf` (src/commands/gen_srf.rs): return the
cache read from `nimble-cache.json` when that file exists; on NotFound
run `gen_srf` — its writes happen NOW — and re-read the cache just
written.  Returns the opened cache, the effects performed, and the
world as gen_srf left it. -/
def open_cache_or_gen_srf (world : SyncWorld) :
    ModCache × List Effect × SyncWorld :=
  match world.cacheFile with
  | Option.some cache => (cache, [], world)
  | Option.none =>
    (genSrfCache world.locals, genSrfEffects world.locals,
      { world with locals := genSrfLocals world.locals })

/-- The candidate loop of `sync`: `diff_mod` per candidate, commands and
deletions aggregated in order. -/
def diffAll (world : SyncWorld) :
    List RepoMod → Outcome (List DownloadCommand × List String)
  | [] => Outcome.ok ([], [])
  | m :: rest =>
    match diff_mod world m with
    | Outcome.err => Outcome.err
    | Outcome.panicked => Outcome.panicked
    | Outcome.ok (cmds, dels) =>
      match diffAll world rest with
      | Outcome.ok (cs, ds) => Outcome.ok (cmds ++ cs, dels ++ ds)
      | Outcome.err => Outcome.err
      | Outcome.panicked => Outcome.panicked

/-- Rust `sync` (src/commands/sync.rs) as the list of filesystem effects it
performs, in order.  The repo fetch is a world input.  The cache comes
from `open_cache_or_gen_srf`: when `nimble-cache.json` is missing that
call runs `gen_srf`, whose writes (a `mod.srf` per walked directory and
the cache file) happen BEFORE the dry-run check, as do the leftover
deletions of the diff phase.  The in-memory cache removals touch no
file; a `diff_mod` error panics (the source calls `.unwrap()`).  Non-dry
runs then write one file per download command (temp-file staging
elided), rewrite each candidate's `mod.srf` via `gen_srf_for_mod`, and
reserialize the cache. -/
def sync (world : SyncWorld) (dry_run : Bool) : Outcome (List Effect) :=
  match open_cache_or_gen_srf world with
  | (mod_cache, pre_effects, world2) =>
    let check := diff_repo mod_cache world.repo
    match diffAll world2 check with
    | Outcome.err => Outcome.panicked
    | Outcome.panicked => Outcome.panicked
    | Outcome.ok (commands, deletions) =>
      if dry_run then Outcome.ok (pre_effects ++ deletions.map Effect.deleteFile)
      else
        Outcome.ok (pre_effects ++ deletions.map Effect.deleteFile
          ++ commands.map (fun c => Effect.writeFile c.file)
          ++ check.map (fun m => Effect.writeFile (m.mod_name ++ "/mod.srf"))
          ++ [Effect.writeCache])

theorem insertAssoc_fresh {α β : Type} [DecidableEq α] :
    ∀ (l : List (α × β)) (k : α) (v : β), (∀ kv ∈ l, ¬ kv.1 = k) →
      insertAssoc l k v = l ++ [(k, v)] := by
  intro l
  induction l with
  | nil => intro k v _; rfl
  | cons kv rest ih =>
    intro k v h
    obtain ⟨k', v'⟩ := kv
    rw [insertAssoc, if_neg (h (k', v') (List.mem_cons_self _ _)),
      ih k v (fun x hx => h x (List.mem_cons_of_mem _ hx))]
    rfl

theorem buildFileMap_nodup_aux :
    ∀ (files : List File) (acc : List (String × File)),
      (∀ kv ∈ acc, kv.1 ∉ files.map File.path) →
      (files.map File.path).Nodup →
      files.foldl (fun m f => insertAssoc m f.path f) acc
        = acc ++ files.map (fun f => (f.path, f)) := by
  intro files
  induction files with
  | nil => intro acc _ _; rw [List.foldl_nil, List.map_nil, List.append_nil]
  | cons f t ih =>
    intro acc hacc hnd
    rw [List.map_cons] at hacc hnd
    have hfresh : ∀ kv ∈ acc, ¬ kv.1 = f.path := by
      intro kv hkv he
      exact hacc kv hkv (by rw [he]; exact List.mem_cons_self _ _)
    have hacc2 : ∀ kv ∈ acc ++ [(f.path, f)], kv.1 ∉ t.map File.path := by
      intro kv hkv
      rcases List.mem_append.mp hkv with hin | hin
      · exact fun hm => hacc kv hin (List.mem_cons_of_mem _ hm)
      · rw [List.mem_singleton.mp hin]
        exact (List.nodup_cons.mp hnd).1
    rw [List.foldl_cons, insertAssoc_fresh acc f.path f hfresh,
      ih (acc ++ [(f.path, f)]) hacc2 (List.nodup_cons.mp hnd).2,
      List.map_cons, List.append_assoc]
    rfl

theorem buildFileMap_nodup (files : List File)
    (hnd : (files.map File.path).Nodup) :
    buildFileMap files = files.map (fun f => (f.path, f)) :=
  buildFileMap_nodup_aux files [] (fun kv hkv => absurd hkv (List.not_mem_nil kv)) hnd

theorem drainLoop_empty_locals (name : String) :
    ∀ R : List (String × File),
      drainLoop name R []
        = (R.map (fun kv => ({ file := name ++ "/" ++ kv.1, begin_ := 0,
                               end_ := kv.2.length } : DownloadCommand)), []) := by
  intro R
  induction R with
  | nil => rfl
  | cons kv rest ih =>
    obtain ⟨path, file⟩ := kv
    rw [drainLoop]
    have hrm : removeAssoc ([] : List (String × File)) path
        = ([] : List (String × File)) := rfl
    rw [hrm, ih]
    rfl

/-- Claim C5 (amended): when the local mod directory does not exist,
`diff_mod` uses the `generate_invalid` placeholder (all-zero checksum,
empty file list, remote name) and — PROVIDED the remote SRF checksum is
not itself the all-zero digest (equality would short-circuit to no
work), and its file paths are distinct (duplicates collapse in the
path-keyed map) — emits exactly one whole-file download command per
remote file, and deletes nothing. -/
theorem diff_mod_missing_dir (world : SyncWorld) (rm : RepoMod) (rsrf : Mod)
    (hremote : lookupAssoc world.remoteSrfs rm.mod_name = Option.some rsrf)
    (hlocal : lookupAssoc world.locals rm.mod_name = Option.none)
    (hck : ¬ rsrf.checksum = Md5Digest.zero)
    (hnodup : (rsrf.files.map File.path).Nodup) :
    diff_mod world rm = Outcome.ok
      (rsrf.files.map (fun f =>
        ({ file := rsrf.name ++ "/" ++ f.path, begin_ := 0,
           end_ := f.length } : DownloadCommand)), []) := by
  rw [diff_mod, hremote]
  simp only []
  rw [hlocal]
  simp only []
  rw [if_neg (fun he => hck (he.symm.trans rfl))]
  have hbl : buildFileMap (Mod.generate_invalid rsrf).files
      = ([] : List (String × File)) := rfl
  have hbr : buildFileMap rsrf.files = rsrf.files.map (fun f => (f.path, f)) :=
    buildFileMap_nodup rsrf.files hnodup
  rw [hbl, hbr, drainLoop_empty_locals]
  simp only []
  rw [List.map_map, List.map_nil]
  rfl

/-- A remote SRF whose checksum is the all-zero digest and which lists
one file, with no local mod directory. -/
def c5world : SyncWorld :=
  { repo := { repo_name := "r", checksum := "C", required_mods := [],
              optional_mods := [], client_parameters := "",
              repo_basic_authentication := Option.none, version := "1",
              servers := [] },
    remoteSrfs := [("@z", { name := "@z", checksum := Md5Digest.zero,
                            files := [{ path := "big.pbo", length := 7, checksum := "AB",
                                        type := FileType.pbo, parts := [] }] })],
    cacheFile := Option.some { version := 1, mods := [] },
    locals := [] }

def c5rm : RepoMod :=
  { mod_name := "@z", checksum := ⟨List.replicate 16 6⟩, enabled := true }

/-- Claim C5, counterexample: the directory is missing and the remote SRF
lists one file, yet `diff_mod` emits no download command, because the
remote checksum equals the placeholder's all-zero checksum and the
comparison short-circuits. -/
theorem diff_mod_zero_checksum_counterexample :
    diff_mod c5world c5rm = Outcome.ok ([], [])
    ∧ (lookupAssoc c5world.remoteSrfs c5rm.mod_name).map
        (fun m => m.files.length) = Option.some 1
    ∧ lookupAssoc c5world.locals c5rm.mod_name = Option.none := by
  refine ⟨by decide, by decide, by decide⟩

/-- A remote SRF with a nonzero checksum and two files, no local
directory. -/
def c5wworld : SyncWorld :=
  { repo := { repo_name := "r", checksum := "C", required_mods := [],
              optional_mods := [], client_parameters := "",
              repo_basic_authentication := Option.none, version := "1",
              servers := [] },
    remoteSrfs := [("@w", { name := "@w", checksum := ⟨List.replicate 16 9⟩,
                            files := [{ path := "a.pbo", length := 1, checksum := "AA",
                                        type := FileType.pbo, parts := [] },
                                      { path := "b.bin", length := 2, checksum := "BB",
                                        type := FileType.file, parts := [] }] })],
    cacheFile := Option.some { version := 1, mods := [] },
    locals := [] }

def c5wrm : RepoMod :=
  { mod_name := "@w", checksum := ⟨List.replicate 16 8⟩, enabled := true }

def c5wsrf : Mod :=
  { name := "@w", checksum := ⟨List.replicate 16 9⟩,
    files := [{ path := "a.pbo", length := 1, checksum := "AA",
                type := FileType.pbo, parts := [] },
              { path := "b.bin", length := 2, checksum := "BB",
                type := FileType.file, parts := [] }] }

theorem diff_mod_missing_dir_witness :
    diff_mod c5wworld c5wrm = Outcome.ok
      ([{ file := "@w/a.pbo", begin_ := 0, end_ := 1 },
        { file := "@w/b.bin", begin_ := 0, end_ := 2 }], []) := by
  have h := diff_mod_missing_dir c5wworld c5wrm c5wsrf (by decide) (by decide)
    (by decide) (by decide)
  rw [h]
  rfl

/-- Claim C3 (amended): what a dry-run `sync` does depends on whether
`nimble-cache.json` opened.  When it did, the run downloads nothing,
writes no file and does not rewrite the cache — every effect is a
`deleteFile` (the leftover deletions executed inside `diff_mod`, before
the dry-run check).  When it was missing, `open_cache_or_gen_srf` runs
`gen_srf` before the dry-run check, so even the dry run writes a fresh
`mod.srf` into every at-prefixed mod directory and writes the cache
file; the only further effects are leftover deletions. -/
theorem sync_dry_run_effects (world : SyncWorld) (tr : List Effect)
    (h : sync world true = Outcome.ok tr) :
    (∀ c, world.cacheFile = Option.some c →
      (∀ e ∈ tr, ∃ p, e = Effect.deleteFile p)
      ∧ (∀ p, Effect.writeFile p ∉ tr)
      ∧ Effect.writeCache ∉ tr)
    ∧ (world.cacheFile = Option.none →
      ∃ dels : List String,
        tr = genSrfEffects world.locals ++ dels.map Effect.deleteFile
        ∧ Effect.writeCache ∈ tr) := by
  rw [sync, open_cache_or_gen_srf] at h
  cases hcf : world.cacheFile with
  | some cache =>
    rw [hcf] at h
    simp only [] at h
    cases hd : diffAll world (diff_repo cache world.repo) with
    | err => rw [hd] at h; exact Outcome.noConfusion h
    | panicked => rw [hd] at h; exact Outcome.noConfusion h
    | ok pr =>
      obtain ⟨commands, deletions⟩ := pr
      rw [hd] at h
      simp only [] at h
      rw [if_true] at h
      injection h with h
      subst h
      constructor
      · intro c hc
        refine ⟨?_, ?_, ?_⟩
        · intro e he
          rw [List.nil_append] at he
          obtain ⟨p, _, he2⟩ := List.mem_map.mp he
          exact ⟨p, he2.symm⟩
        · intro p hw
          rw [List.nil_append] at hw
          obtain ⟨q, _, he2⟩ := List.mem_map.mp hw
          exact Effect.noConfusion he2
        · intro hw
          rw [List.nil_append] at hw
          obtain ⟨q, _, he2⟩ := List.mem_map.mp hw
          exact Effect.noConfusion he2
      · intro hnone
        exact Option.noConfusion hnone
  | none =>
    rw [hcf] at h
    simp only [] at h
    cases hd : diffAll { repo := world.repo, remoteSrfs := world.remoteSrfs,
                         cacheFile := Option.none,
                         locals := genSrfLocals world.locals }
        (diff_repo (genSrfCache world.locals) world.repo) with
    | err => rw [hd] at h; exact Outcome.noConfusion h
    | panicked => rw [hd] at h; exact Outcome.noConfusion h
    | ok pr =>
      obtain ⟨commands, deletions⟩ := pr
      rw [hd] at h
      simp only [] at h
      rw [if_true] at h
      injection h with h
      subst h
      constructor
      · intro c hc
        exact Option.noConfusion hc
      · intro _
        refine ⟨deletions, rfl, ?_⟩
        rw [genSrfEffects]
        exact List.mem_append_left _
          (List.mem_append_right _ (List.mem_singleton.mpr rfl))

/-- A world with one candidate mod whose local directory holds a leftover
file `x` that the remote SRF does not list. -/
def c3world : SyncWorld :=
  { repo := { repo_name := "r", checksum := "C",
              required_mods := [{ mod_name := "@m",
                                  checksum := ⟨List.replicate 16 3⟩,
                                  enabled := true }],
              optional_mods := [], client_parameters := "",
              repo_basic_authentication := Option.none, version := "1",
              servers := [] },
    remoteSrfs := [("@m", { name := "@m", checksum := ⟨List.replicate 16 4⟩,
                            files := [] })],
    cacheFile := Option.some { version := 1, mods := [] },
    locals := [("@m",
      { srf := Option.some { name := "@m", checksum := ⟨List.replicate 16 5⟩,
                             files := [{ path := "x", length := 1, checksum := "AA",
                                         type := FileType.file, parts := [] }] },
        scanned := { name := "@m", checksum := Md5Digest.zero, files := [] } })] }

/-- A world with no `nimble-cache.json`, an empty required-mod list and
one at-prefixed local directory. -/
def c3genworld : SyncWorld :=
  { repo := { repo_name := "r", checksum := "C", required_mods := [],
              optional_mods := [], client_parameters := "",
              repo_basic_authentication := Option.none, version := "1",
              servers := [] },
    remoteSrfs := [],
    cacheFile := Option.none,
    locals := [("@m",
      { srf := Option.none,
        scanned := { name := "@m", checksum := ⟨List.replicate 16 7⟩,
                     files := [] } })] }

/-- Claim C3, counterexample: with `--dry-run` set, `sync` still deletes
the leftover local file `@m/x` — `remove_leftover_files` runs inside
`diff_mod`, before the dry-run check; and when `nimble-cache.json` is
missing, the dry run still writes `@m/mod.srf` and the cache file —
`open_cache_or_gen_srf` runs `gen_srf` before the dry-run check. -/
theorem sync_dry_run_deletes_counterexample :
    sync c3world true = Outcome.ok [Effect.deleteFile "@m/x"]
    ∧ sync c3genworld true
      = Outcome.ok [Effect.writeFile "@m/mod.srf", Effect.writeCache] := by
  refine ⟨by decide, by decide⟩

/-- The opened cache of the witness world: one entry, hit by its single
required mod. -/
def c3cache : ModCache :=
  { version := 1, mods := [(⟨List.replicate 16 3⟩, { name := "@m" })] }

/-- A world whose single candidate needs nothing (cache hit), so dry-run
sync succeeds with no effects. -/
def c3wworld : SyncWorld :=
  { repo := { repo_name := "r", checksum := "C",
              required_mods := [{ mod_name := "@m",
                                  checksum := ⟨List.replicate 16 3⟩,
                                  enabled := true }],
              optional_mods := [], client_parameters := "",
              repo_basic_authentication := Option.none, version := "1",
              servers := [] },
    remoteSrfs := [("@m", { name := "@m", checksum := ⟨List.replicate 16 4⟩,
                            files := [] })],
    cacheFile := Option.some c3cache,
    locals := [] }

/-- A world with no `nimble-cache.json` and one candidate whose
regenerated local `mod.srf` holds a leftover file. -/
def c3gwworld : SyncWorld :=
  { repo := { repo_name := "r", checksum := "C",
              required_mods := [{ mod_name := "@g",
                                  checksum := ⟨List.replicate 16 3⟩,
                                  enabled := true }],
              optional_mods := [], client_parameters := "",
              repo_basic_authentication := Option.none, version := "1",
              servers := [] },
    remoteSrfs := [("@g", { name := "@g", checksum := ⟨List.replicate 16 4⟩,
                            files := [] })],
    cacheFile := Option.none,
    locals := [("@g",
      { srf := Option.none,
        scanned := { name := "@g", checksum := ⟨List.replicate 16 6⟩,
                     files := [{ path := "x", length := 1, checksum := "AA",
                                 type := FileType.file, parts := [] }] } })] }

theorem sync_dry_run_effects_witness :
    (match sync c3wworld true with
     | Outcome.ok tr =>
        (∀ e ∈ tr, ∃ p, e = Effect.deleteFile p)
        ∧ (∀ p, Effect.writeFile p ∉ tr)
        ∧ Effect.writeCache ∉ tr
     | Outcome.err => False
     | Outcome.panicked => False)
    ∧ (match sync c3gwworld true with
     | Outcome.ok tr =>
        ∃ dels : List String,
          tr = genSrfEffects c3gwworld.locals ++ dels.map Effect.deleteFile
          ∧ Effect.writeCache ∈ tr
     | Outcome.err => False
     | Outcome.panicked => False) := by
  constructor
  · cases hv : sync c3wworld true with
    | ok tr => exact (sync_dry_run_effects c3wworld tr hv).1 c3cache rfl
    | err => exact absurd hv (by decide)
    | panicked => exact absurd hv (by decide)
  · cases hv : sync c3gwworld true with
    | ok tr => exact (sync_dry_run_effects c3gwworld tr hv).2 rfl
    | err => exact absurd hv (by decide)
    | panicked => exact absurd hv (by decide)

end Nimble
